import Mathlib

/-!
Verification of the cross-thread callback-scheduling subsystem and the
ordered object-container mixin of the `urwid_uikit` widget toolkit.

The development shallowly embeds the relevant Python classes:

* `src/urwid_uikit/app.py`: `Application` (event queue, wake-up logic,
  `call_later`) and `CallbackHandle` (`cancel`, `reschedule`, `_call`);
* `src/urwid_uikit/mixins.py`: `ObjectContainerMixin` together with the
  widget container protocol of `src/urwid_uikit/list.py` (`List`);
* `src/urwid_uikit/concurrency.py`: `SelectableQueue` and `ThreadPoolJob`.

Time stamps are modelled as integers (the code uses floating-point seconds
only through `max`, addition and subtraction, so any linearly ordered
abelian group is a faithful carrier).  Threads are identified by naturals,
and `current_thread()` becomes an explicit `caller` argument.  Exceptions
become `Except` results; a callback body that may raise is modelled by a
boolean flag saying whether it raised.
-/

/-! ### The scheduler: `Application` and `CallbackHandle` from `app.py` -/

/-- Events travelling through the application's `SelectableQueue`.
`refreshEvent` models `Application._REFRESH_EVENT`, `wakeUpEvent` models
`Application._WAKE_UP_EVENT` (both are unique sentinel objects in the
source); `userEvent` stands for any other injected object. -/
inductive AppEvent : Type
  | refreshEvent : AppEvent
  | wakeUpEvent : AppEvent
  | userEvent : Nat → AppEvent
deriving DecidableEq

/-- One entry of the urwid main loop's alarm table.  `token` models the
opaque handle returned by `loop.set_alarm_in`, `time` the absolute fire
time, and `owner` identifies the `CallbackHandle` whose bound `_call`
method was registered as the alarm's callback. -/
structure Alarm : Type where
  token : Nat
  time : Int
  owner : Nat
deriving DecidableEq

/-- State of an `Application` as far as the scheduler is concerned: the
main loop's alarm table (`loop.set_alarm_in` / `loop.remove_alarm`), a
fresh-token counter, the contents of the `_events` queue, and
`_my_thread` (the identity of the thread running the main loop, `none`
before `run()` was entered). -/
structure SchedApp : Type where
  alarms : List Alarm
  nextToken : Nat
  events : List AppEvent
  myThread : Option Nat
deriving DecidableEq

/-- Model of `Application.inject_event`: appends the event to the FIFO
`_events` queue. -/
def SchedApp.injectEvent (app : SchedApp) (e : AppEvent) : SchedApp :=
  { app with events := app.events ++ [e] }

/-- Model of `Application._wake_up`, executed by thread `caller`: a no-op
before the main loop started (`_my_thread is None`); otherwise injects the
`_WAKE_UP_EVENT` marker exactly when the caller is not the main-loop
thread. -/
def SchedApp.wakeUp (app : SchedApp) (caller : Nat) : SchedApp :=
  match app.myThread with
  | none => app
  | some t => if caller ≠ t then app.injectEvent AppEvent.wakeUpEvent else app

/-- Model of `loop.set_alarm_in(after, cb)` called at absolute time `now`
by the handle identified by `owner`: registers an alarm at `now + after`
and returns the fresh alarm token. -/
def SchedApp.setAlarmIn (app : SchedApp) (now after : Int) (owner : Nat) :
    SchedApp × Nat :=
  ({ app with
      alarms := app.alarms ++ [⟨app.nextToken, now + after, owner⟩],
      nextToken := app.nextToken + 1 },
    app.nextToken)

/-- Model of `loop.remove_alarm(handle)`: drops the alarm with the given
token (tokens are unique, so filtering equals removing the single entry). -/
def SchedApp.removeAlarm (app : SchedApp) (tok : Nat) : SchedApp :=
  { app with alarms := app.alarms.filter (fun a => decide (a.token ≠ tok)) }

/-- State of a `CallbackHandle`: `hid` names the handle (standing for the
identity of its bound `_call` method), `handle` is `_handle` (the pending
alarm token), `nextCallAt` is `_next_call_at`, `numCalled` is
`_num_called` and `interval` is the recurrence interval. -/
structure CallbackHandle : Type where
  hid : Nat
  handle : Option Nat
  nextCallAt : Option Int
  numCalled : Nat
  interval : Option Int
deriving DecidableEq

/-- Model of `CallbackHandle.cancel` executed by thread `caller`: clears
`_handle` and `_next_call_at`; if an alarm was pending it is removed from
the loop and `_wake_up` is invoked, otherwise nothing else happens. -/
def CallbackHandle.cancel (h : CallbackHandle) (app : SchedApp) (caller : Nat) :
    SchedApp × CallbackHandle :=
  let tok := h.handle
  let h' := { h with handle := none, nextCallAt := none }
  match tok with
  | none => (app, h')
  | some t => (((app.removeAlarm t).wakeUp caller), h')

/-- Model of `CallbackHandle.reschedule(after=..., to=...)` executed by
thread `caller` at absolute time `now` (the value of `time()`).  Mirrors
the source exactly: argument validation first, then `cancel()`, then the
relative delay is computed (`to - now` for an absolute time), clamped to
zero, `_next_call_at` is set, a fresh alarm is registered and the loop is
woken up.  The source finally returns `True`; the `Except.ok` constructor
plays that role here, `Except.error` the `ValueError`. -/
def CallbackHandle.reschedule (h : CallbackHandle) (app : SchedApp)
    (caller : Nat) (now : Int) (after to_ : Option Int) :
    Except String (SchedApp × CallbackHandle) :=
  if after = none ∧ to_ = none then
    Except.error "exactly one of 'after' or 'to' must be given"
  else if after ≠ none ∧ to_ ≠ none then
    Except.error "exactly one of 'after' or 'to' must be given"
  else
    let ch := h.cancel app caller
    let app1 := ch.1
    let h1 := ch.2
    let afterV : Int :=
      match to_ with
      | some t => t - now
      | none => after.getD 0
    let afterC : Int := max afterV 0
    let h2 := { h1 with nextCallAt := some (now + afterC) }
    let sa := app1.setAlarmIn now afterC h.hid
    let app2 := sa.1
    let tok := sa.2
    let h3 := { h2 with handle := some tok }
    let app3 := app2.wakeUp caller
    Except.ok (app3, h3)

/-- Model of `CallbackHandle._call`, the alarm callback, running on thread
`caller` at time `now`.  The heap fix-up applied to
`loop.event_loop._alarms` re-establishes the heap invariant without
changing the set of alarms, so it is invisible in this model.  The
callback body either returns or raises (`callbackRaises`); thanks to the
`try/finally` block, a recurring handle is rescheduled in both cases and
the returned boolean reports whether the exception then propagates. -/
def CallbackHandle.call (h : CallbackHandle) (app : SchedApp) (caller : Nat)
    (now : Int) (callbackRaises : Bool) :
    SchedApp × CallbackHandle × Bool :=
  let h1 := { h with numCalled := h.numCalled + 1, handle := none, nextCallAt := none }
  let st :=
    match h1.interval with
    | some i =>
        if 0 < i then
          match h1.reschedule app caller now (some i) none with
          | Except.ok r => r
          | Except.error _ => (app, h1)
        else (app, h1)
    | none => (app, h1)
  (st.1, st.2, callbackRaises)

/-- Model of `Application.call_later(callback, after, at, every)` executed
by thread `caller` at time `now`, creating a handle named `hid`.  Mirrors
the argument handling of the source: with `after` and `at` both absent the
call raises unless `every` is given, in which case `after` defaults to 0;
giving both raises; an absolute time is converted to a relative delay; the
new handle stores `every` as its interval and is rescheduled. -/
def SchedApp.callLater (app : SchedApp) (caller : Nat) (now : Int) (hid : Nat)
    (after at_ every : Option Int) :
    Except String (SchedApp × CallbackHandle) :=
  if after = none ∧ at_ = none ∧ every = none then
    Except.error "exactly one of 'after' and 'at' must be given"
  else
    let after := if after = none ∧ at_ = none then some 0 else after
    if after ≠ none ∧ at_ ≠ none then
      Except.error "exactly one of 'after' and 'at' must be given"
    else
      let after : Option Int :=
        match after with
        | none => some (at_.getD 0 - now)
        | some a => some a
      let h : CallbackHandle :=
        { hid := hid, handle := none, nextCallAt := none, numCalled := 0,
          interval := every }
      h.reschedule app caller now after none

/-- Well-formedness of the alarm table: tokens are pairwise distinct and
all below the fresh-token counter.  Every state reachable through
`setAlarmIn` / `removeAlarm` satisfies this. -/
def SchedApp.Wf (app : SchedApp) : Prop :=
  (app.alarms.map Alarm.token).Nodup ∧ ∀ a ∈ app.alarms, a.token < app.nextToken

instance (app : SchedApp) : Decidable app.Wf := by
  unfold SchedApp.Wf; infer_instance

/-- The alarms whose callback is the `_call` method of the handle
identified by `owner`. -/
def SchedApp.alarmsOf (app : SchedApp) (owner : Nat) : List Alarm :=
  app.alarms.filter (fun a => decide (a.owner = owner))

/-- The at-most-one-pending-fire invariant of a handle: every alarm whose
callback belongs to this handle is the one tracked by `_handle`. -/
def CallbackHandle.OwnsPending (h : CallbackHandle) (app : SchedApp) : Prop :=
  ∀ a ∈ app.alarms, a.owner = h.hid → some a.token = h.handle

instance (h : CallbackHandle) (app : SchedApp) : Decidable (h.OwnsPending app) := by
  unfold CallbackHandle.OwnsPending; infer_instance

/-- Relative delay computed by `reschedule` from its arguments at time
`now` (`to - now` for an absolute time), clamped to zero. -/
def afterClamped (now : Int) (after to_ : Option Int) : Int :=
  max
    (match to_ with
     | some t => t - now
     | none => after.getD 0)
    0

/-- Absolute fire time computed by `reschedule` from its arguments at time
`now`. -/
def fireTimeOf (now : Int) (after to_ : Option Int) : Int :=
  now + afterClamped now after to_

/-- Validity of a `reschedule` argument pair: exactly one of the relative
and the absolute time is supplied. -/
def exactlyOneGiven (after to_ : Option Int) : Prop :=
  after.isSome ≠ to_.isSome

instance (after to_ : Option Int) : Decidable (exactlyOneGiven after to_) := by
  unfold exactlyOneGiven; infer_instance

/-! ### Scheduler lemmas -/

theorem wakeUp_alarms (app : SchedApp) (c : Nat) : (app.wakeUp c).alarms = app.alarms := by
  rcases hmt : app.myThread with _ | t <;>
    simp [SchedApp.wakeUp, SchedApp.injectEvent, hmt] <;> split <;> rfl

theorem wakeUp_nextToken (app : SchedApp) (c : Nat) :
    (app.wakeUp c).nextToken = app.nextToken := by
  rcases hmt : app.myThread with _ | t <;>
    simp [SchedApp.wakeUp, SchedApp.injectEvent, hmt] <;> split <;> rfl

theorem wakeUp_myThread (app : SchedApp) (c : Nat) :
    (app.wakeUp c).myThread = app.myThread := by
  rcases hmt : app.myThread with _ | t <;>
    simp [SchedApp.wakeUp, SchedApp.injectEvent, hmt] <;> split <;> simp [hmt]

theorem wakeUp_events (app : SchedApp) (c : Nat) :
    (app.wakeUp c).events =
      app.events ++
        (match app.myThread with
         | none => []
         | some t => if c ≠ t then [AppEvent.wakeUpEvent] else []) := by
  rcases hmt : app.myThread with _ | t <;>
    simp [SchedApp.wakeUp, SchedApp.injectEvent, hmt]
  split <;> simp

theorem cancel_handle_state (h : CallbackHandle) (app : SchedApp) (c : Nat) :
    (h.cancel app c).2 = { h with handle := none, nextCallAt := none } := by
  unfold CallbackHandle.cancel
  cases h.handle <;> rfl

theorem cancel_alarms (h : CallbackHandle) (app : SchedApp) (c : Nat) :
    (h.cancel app c).1.alarms =
      (match h.handle with
       | none => app.alarms
       | some t => app.alarms.filter (fun a => decide (a.token ≠ t))) := by
  rcases hh : h.handle with _ | t <;>
    simp [CallbackHandle.cancel, hh, wakeUp_alarms, SchedApp.removeAlarm]

theorem cancel_nextToken (h : CallbackHandle) (app : SchedApp) (c : Nat) :
    (h.cancel app c).1.nextToken = app.nextToken := by
  rcases hh : h.handle with _ | t <;>
    simp [CallbackHandle.cancel, hh, wakeUp_nextToken, SchedApp.removeAlarm]

theorem cancel_myThread (h : CallbackHandle) (app : SchedApp) (c : Nat) :
    (h.cancel app c).1.myThread = app.myThread := by
  rcases hh : h.handle with _ | t <;>
    simp [CallbackHandle.cancel, hh, wakeUp_myThread, SchedApp.removeAlarm]

theorem cancel_events (h : CallbackHandle) (app : SchedApp) (c : Nat) :
    (h.cancel app c).1.events =
      app.events ++
        (match h.handle, app.myThread with
         | some _, some t => if c ≠ t then [AppEvent.wakeUpEvent] else []
         | _, _ => []) := by
  rcases hh : h.handle with _ | tok <;>
    rcases hmt : app.myThread with _ | t <;>
      simp [CallbackHandle.cancel, hh, wakeUp_events, SchedApp.removeAlarm, hmt]

theorem cancel_wf (h : CallbackHandle) (app : SchedApp) (c : Nat) (hwf : app.Wf) :
    (h.cancel app c).1.Wf := by
  obtain ⟨hnd, hbd⟩ := hwf
  constructor
  · rw [cancel_alarms]
    rcases hh : h.handle with _ | t
    · exact hnd
    · exact hnd.sublist ((List.filter_sublist _).map _)
  · intro a ha
    rw [cancel_alarms] at ha
    rw [cancel_nextToken]
    rcases hh : h.handle with _ | t <;> rw [hh] at ha
    · exact hbd a ha
    · exact hbd a (List.mem_of_mem_filter ha)

theorem cancel_no_owned (h : CallbackHandle) (app : SchedApp) (c : Nat)
    (hown : h.OwnsPending app) :
    ∀ a ∈ (h.cancel app c).1.alarms, a.owner ≠ h.hid := by
  intro a ha howner
  rw [cancel_alarms] at ha
  rcases hh : h.handle with _ | t <;> rw [hh] at ha
  · have := hown a ha howner
    rw [hh] at this
    exact Option.noConfusion this
  · have hmem := List.mem_of_mem_filter ha
    have hne := List.of_mem_filter ha
    simp only [decide_eq_true_eq] at hne
    have := hown a hmem howner
    rw [hh] at this
    exact hne (Option.some.injEq _ _ ▸ this)

theorem setAlarm_wakeUp_wf (app : SchedApp) (now af : Int) (ow c : Nat)
    (hwf : app.Wf) :
    (((app.setAlarmIn now af ow).1).wakeUp c).Wf := by
  obtain ⟨hnd, hbd⟩ := hwf
  constructor
  · rw [wakeUp_alarms]
    simp only [SchedApp.setAlarmIn, List.map_append, List.map_cons, List.map_nil]
    rw [List.nodup_append]
    refine ⟨hnd, List.nodup_singleton _, ?_⟩
    intro x hx hx1
    simp only [List.mem_singleton] at hx1
    subst hx1
    obtain ⟨a, ha, hax⟩ := List.mem_map.mp hx
    exact absurd hax (Nat.ne_of_lt (hbd a ha))
  · intro a ha
    rw [wakeUp_alarms] at ha
    rw [wakeUp_nextToken]
    simp only [SchedApp.setAlarmIn, List.mem_append, List.mem_singleton] at ha ⊢
    rcases ha with ha | ha
    · exact Nat.lt_succ_of_lt (hbd a ha)
    · subst ha
      exact Nat.lt_succ_self _

theorem setAlarm_wakeUp_owned (app : SchedApp) (now af : Int) (ow c : Nat)
    (hno : ∀ a ∈ app.alarms, a.owner ≠ ow) :
    (((app.setAlarmIn now af ow).1).wakeUp c).alarmsOf ow =
      [⟨app.nextToken, now + af, ow⟩] := by
  unfold SchedApp.alarmsOf
  rw [wakeUp_alarms]
  simp only [SchedApp.setAlarmIn, List.filter_append]
  rw [List.filter_eq_nil_iff.mpr, List.nil_append]
  · simp
  · intro a ha
    simp only [decide_eq_true_eq]
    exact hno a ha

/-- Behaviour of a single valid `reschedule` on a well-formed application
whose alarm table respects the handle's at-most-one-pending invariant:
the call succeeds, the invariants are preserved, the handle tracks a fresh
alarm, and the handle's only alarm in the table fires at `fireTimeOf`. -/
theorem reschedule_spec (h : CallbackHandle) (app : SchedApp) (caller : Nat)
    (now : Int) (a t : Option Int)
    (hwf : app.Wf) (hown : h.OwnsPending app) (hv : exactlyOneGiven a t) :
    ∃ app' h',
      h.reschedule app caller now a t = Except.ok (app', h') ∧
      app'.Wf ∧ h'.OwnsPending app' ∧
      h'.hid = h.hid ∧
      h'.handle = some app.nextToken ∧
      h'.nextCallAt = some (fireTimeOf now a t) ∧
      h'.interval = h.interval ∧
      h'.numCalled = h.numCalled ∧
      app'.alarmsOf h.hid = [⟨app.nextToken, fireTimeOf now a t, h.hid⟩] ∧
      app'.nextToken = app.nextToken + 1 ∧
      app'.myThread = app.myThread := by
  have hcwf := cancel_wf h app caller hwf
  have hcno := cancel_no_owned h app caller hown
  have hctok := cancel_nextToken h app caller
  have hcth := cancel_myThread h app caller
  have hchs := cancel_handle_state h app caller
  rcases a with _ | av <;> rcases t with _ | tv
  · exact absurd rfl hv
  case none.some =>
    refine ⟨(((h.cancel app caller).1.setAlarmIn now (max (tv - now) 0) h.hid).1).wakeUp caller,
      { (h.cancel app caller).2 with
          nextCallAt := some (now + max (tv - now) 0),
          handle := some ((h.cancel app caller).1.setAlarmIn now
            (max (tv - now) 0) h.hid).2 },
      ?_, ?_, ?_, ?_, ?_, ?_, ?_, ?_, ?_, ?_, ?_⟩
    · unfold CallbackHandle.reschedule
      rw [if_neg (by simp), if_neg (by simp)]
      try rfl
    · exact setAlarm_wakeUp_wf _ _ _ _ _ hcwf
    · intro al hal howner
      rw [wakeUp_alarms] at hal
      simp only [SchedApp.setAlarmIn, List.mem_append, List.mem_singleton] at hal
      rcases hal with hal | hal
      · rw [hchs] at howner
        exact absurd howner (hcno al hal)
      · subst hal
        simp [SchedApp.setAlarmIn]
    · rw [hchs]
    · simp [SchedApp.setAlarmIn, hctok]
    · rfl
    · rw [hchs]
    · rw [hchs]
    · rw [setAlarm_wakeUp_owned _ _ _ _ _ hcno, hctok]
      rfl
    · rw [wakeUp_nextToken]
      simp [SchedApp.setAlarmIn, hctok]
    · rw [wakeUp_myThread]
      simp [SchedApp.setAlarmIn, hcth]
  case some.none =>
    refine ⟨(((h.cancel app caller).1.setAlarmIn now (max av 0) h.hid).1).wakeUp caller,
      { (h.cancel app caller).2 with
          nextCallAt := some (now + max av 0),
          handle := some ((h.cancel app caller).1.setAlarmIn now
            (max av 0) h.hid).2 },
      ?_, ?_, ?_, ?_, ?_, ?_, ?_, ?_, ?_, ?_, ?_⟩
    · unfold CallbackHandle.reschedule
      rw [if_neg (by simp), if_neg (by simp)]
      try rfl
    · exact setAlarm_wakeUp_wf _ _ _ _ _ hcwf
    · intro al hal howner
      rw [wakeUp_alarms] at hal
      simp only [SchedApp.setAlarmIn, List.mem_append, List.mem_singleton] at hal
      rcases hal with hal | hal
      · rw [hchs] at howner
        exact absurd howner (hcno al hal)
      · subst hal
        simp [SchedApp.setAlarmIn]
    · rw [hchs]
    · simp [SchedApp.setAlarmIn, hctok]
    · rfl
    · rw [hchs]
    · rw [hchs]
    · rw [setAlarm_wakeUp_owned _ _ _ _ _ hcno, hctok]
      rfl
    · rw [wakeUp_nextToken]
      simp [SchedApp.setAlarmIn, hctok]
    · rw [wakeUp_myThread]
      simp [SchedApp.setAlarmIn, hcth]
  · exact absurd rfl hv

theorem setAlarmIn_events (app : SchedApp) (now af : Int) (ow : Nat) :
    ((app.setAlarmIn now af ow).1).events = app.events := rfl

theorem setAlarmIn_myThread (app : SchedApp) (now af : Int) (ow : Nat) :
    ((app.setAlarmIn now af ow).1).myThread = app.myThread := rfl

/-- Explicit shape of a successful `reschedule`: on any valid argument
pair the call cancels, registers one fresh alarm at the clamped fire time
and wakes the loop; no well-formedness assumptions are needed. -/
theorem reschedule_ok_shape (h : CallbackHandle) (app : SchedApp) (caller : Nat)
    (now : Int) (a t : Option Int) (hv : exactlyOneGiven a t) :
    h.reschedule app caller now a t =
      Except.ok
        ((((h.cancel app caller).1.setAlarmIn now
            (afterClamped now a t) h.hid).1).wakeUp caller,
          { (h.cancel app caller).2 with
              nextCallAt := some (now + afterClamped now a t),
              handle := some ((h.cancel app caller).1.setAlarmIn now
                (afterClamped now a t) h.hid).2 }) := by
  rcases a with _ | av <;> rcases t with _ | tv
  · exact absurd rfl hv
  · unfold CallbackHandle.reschedule afterClamped
    rw [if_neg (by simp), if_neg (by simp)]
    try rfl
  · unfold CallbackHandle.reschedule afterClamped
    rw [if_neg (by simp), if_neg (by simp)]
    try rfl
  · exact absurd rfl hv

/-- C1: for every `CallbackHandle`, at most one fire is pending at any
time; `reschedule` (with any valid argument pair) first cancels any
existing pending fire, so two successive calls leave exactly one pending
alarm for the handle, timed from the second call's arguments, and the
handle's `_next_call_at` agrees with it. -/
theorem C1_reschedule_twice_single_pending
    (app : SchedApp) (h : CallbackHandle) (c₁ c₂ : Nat) (n₁ n₂ : Int)
    (a₁ t₁ a₂ t₂ : Option Int)
    (hwf : app.Wf) (hown : h.OwnsPending app)
    (hv₁ : exactlyOneGiven a₁ t₁) (hv₂ : exactlyOneGiven a₂ t₂) :
    ∃ app₁ h₁ app₂ h₂,
      h.reschedule app c₁ n₁ a₁ t₁ = Except.ok (app₁, h₁) ∧
      h₁.reschedule app₁ c₂ n₂ a₂ t₂ = Except.ok (app₂, h₂) ∧
      h₂.handle = some app₁.nextToken ∧
      app₂.alarmsOf h.hid = [⟨app₁.nextToken, fireTimeOf n₂ a₂ t₂, h.hid⟩] ∧
      h₂.nextCallAt = some (fireTimeOf n₂ a₂ t₂) ∧
      (app₂.alarmsOf h.hid).length = 1 := by
  obtain ⟨app₁, h₁, heq₁, hwf₁, hown₁, hhid₁, _, _, _, _, _, _, _⟩ :=
    reschedule_spec h app c₁ n₁ a₁ t₁ hwf hown hv₁
  obtain ⟨app₂, h₂, heq₂, hwf₂, hown₂, hhid₂, hhandle₂, hnca₂, _, _, howned₂, _, _⟩ :=
    reschedule_spec h₁ app₁ c₂ n₂ a₂ t₂ hwf₁ hown₁ hv₂
  refine ⟨app₁, h₁, app₂, h₂, heq₁, heq₂, hhandle₂, ?_, hnca₂, ?_⟩
  · rw [← hhid₁, howned₂]
  · rw [← hhid₁, howned₂]
    rfl

/-- C1 witness: a concrete double reschedule (first relative, then
absolute) on a fresh handle of an application whose main loop runs on
thread 0. -/
theorem C1_reschedule_twice_witness :
    ∃ app₁ h₁ app₂ h₂,
      CallbackHandle.reschedule ⟨5, none, none, 0, none⟩ ⟨[], 0, [], some 0⟩
          1 100 (some 3) none = Except.ok (app₁, h₁) ∧
      h₁.reschedule app₁ 0 200 none (some 50) = Except.ok (app₂, h₂) ∧
      h₂.handle = some app₁.nextToken ∧
      app₂.alarmsOf 5 = [⟨app₁.nextToken, fireTimeOf 200 none (some 50), 5⟩] ∧
      h₂.nextCallAt = some (fireTimeOf 200 none (some 50)) ∧
      (app₂.alarmsOf 5).length = 1 :=
  C1_reschedule_twice_single_pending ⟨[], 0, [], some 0⟩ ⟨5, none, none, 0, none⟩
    1 0 100 200 (some 3) none none (some 50)
    (by decide) (by decide) (by decide) (by decide)

/-- C3: a recurring handle with positive interval `i`, fired at time
`now` (with no alarm of its own left in the table, the firing alarm having
been delivered), is requeued with a single fresh pending alarm at
`now + i`, and this happens whether or not the invoked callback raised;
the exception flag propagates only after the requeue. -/
theorem C3_recurring_requeued_after_fire
    (app : SchedApp) (h : CallbackHandle) (caller : Nat) (now i : Int)
    (raises : Bool)
    (hwf : app.Wf) (hno : ∀ a ∈ app.alarms, a.owner ≠ h.hid)
    (hint : h.interval = some i) (hpos : 0 < i) :
    (h.call app caller now raises).2.2 = raises ∧
    (h.call app caller now raises).2.1.nextCallAt = some (now + i) ∧
    (h.call app caller now raises).2.1.handle = some app.nextToken ∧
    (h.call app caller now raises).1.alarmsOf h.hid =
      [⟨app.nextToken, now + i, h.hid⟩] ∧
    (h.call app caller now raises).2.1.numCalled = h.numCalled + 1 := by
  have hown1 : CallbackHandle.OwnsPending
      { h with numCalled := h.numCalled + 1, handle := none, nextCallAt := none } app := by
    intro a ha howner
    exact absurd howner (hno a ha)
  obtain ⟨app', h', heq, _, _, hhid, hhandle, hnca, hintv, hnum, howned, _, _⟩ :=
    reschedule_spec
      { h with numCalled := h.numCalled + 1, handle := none, nextCallAt := none }
      app caller now (some i) none hwf hown1 (by simp [exactlyOneGiven])
  have hmax : max i 0 = i := max_eq_left (le_of_lt hpos)
  have hfire : fireTimeOf now (some i) none = now + i := by
    unfold fireTimeOf afterClamped
    simp [hmax]
  unfold CallbackHandle.call
  simp only [hint, hfire] at *
  rw [if_pos hpos, heq]
  refine ⟨?_, hnca, hhandle, howned, hnum⟩
  trivial

/-- C3 witness: a concrete recurring handle with interval 4 firing at
time 50 with a raising callback. -/
theorem C3_recurring_requeued_witness :
    (CallbackHandle.call ⟨3, none, none, 2, some 4⟩ ⟨[], 10, [], some 0⟩
        0 50 true).2.2 = true ∧
    (CallbackHandle.call ⟨3, none, none, 2, some 4⟩ ⟨[], 10, [], some 0⟩
        0 50 true).2.1.nextCallAt = some (50 + 4) ∧
    (CallbackHandle.call ⟨3, none, none, 2, some 4⟩ ⟨[], 10, [], some 0⟩
        0 50 true).2.1.handle = some 10 ∧
    (CallbackHandle.call ⟨3, none, none, 2, some 4⟩ ⟨[], 10, [], some 0⟩
        0 50 true).1.alarmsOf 3 = [⟨10, 50 + 4, 3⟩] ∧
    (CallbackHandle.call ⟨3, none, none, 2, some 4⟩ ⟨[], 10, [], some 0⟩
        0 50 true).2.1.numCalled = 2 + 1 :=
  C3_recurring_requeued_after_fire ⟨[], 10, [], some 0⟩ ⟨3, none, none, 2, some 4⟩
    0 50 4 true (by decide) (by decide) (by decide) (by decide)

/-- Formalization of C4 as stated, restricted to `cancel` (one of the two
operations it quantifies over): once the main loop runs on thread `t`,
a `cancel` issued by any thread injects a wake-up marker (changes the
event queue) exactly when the caller is not `t`. -/
def cancelInjectsMarkerIffCrossThread : Prop :=
  ∀ (app : SchedApp) (h : CallbackHandle) (caller t : Nat),
    app.myThread = some t →
    ((h.cancel app caller).1.events ≠ app.events ↔ caller ≠ t)

/-- C4 counterexample: cancelling an unscheduled handle from a worker
thread injects no wake-up marker, refuting the claimed equivalence. -/
theorem C4_cancel_counterexample : ¬ cancelInjectsMarkerIffCrossThread := by
  intro hcl
  have h1 := (hcl ⟨[], 0, [], some 0⟩ ⟨0, none, none, 0, none⟩ 1 0 rfl).mpr (by decide)
  exact h1 rfl

/-- C4 (amended): after the main loop has started on thread `t`, a valid
`reschedule` appends wake-up markers exactly when the caller is not `t`
(one marker, or two when a pending fire was also cancelled), and `cancel`
appends exactly one marker when the caller is not `t` and a fire was
pending, and nothing otherwise; in particular main-loop-thread calls never
inject markers, and `cancel` of an unscheduled handle injects none even
cross-thread. -/
theorem C4_wake_marker_policy
    (app : SchedApp) (h : CallbackHandle) (caller t : Nat) (now : Int)
    (a to_ : Option Int)
    (hm : app.myThread = some t) (hv : exactlyOneGiven a to_) :
    (∃ app' h', h.reschedule app caller now a to_ = Except.ok (app', h') ∧
       app'.events =
         app.events ++
           (if caller = t then []
            else if h.handle = none then [AppEvent.wakeUpEvent]
            else [AppEvent.wakeUpEvent, AppEvent.wakeUpEvent]) ∧
       (app'.events ≠ app.events ↔ caller ≠ t)) ∧
    ((h.cancel app caller).1.events =
       app.events ++
         (if caller ≠ t ∧ h.handle ≠ none then [AppEvent.wakeUpEvent] else [])) := by
  have hcev := cancel_events h app caller
  have hcth := cancel_myThread h app caller
  constructor
  · refine ⟨_, _, reschedule_ok_shape h app caller now a to_ hv, ?_, ?_⟩
    · rw [wakeUp_events, setAlarmIn_events, setAlarmIn_myThread, hcth, hm, hcev, hm]
      rcases hh : h.handle with _ | tok <;>
        by_cases hc : caller = t <;>
          simp [hh, hc]
    · rw [wakeUp_events, setAlarmIn_events, setAlarmIn_myThread, hcth, hm, hcev, hm]
      by_cases hc : caller = t
      · rcases hh : h.handle with _ | tok <;> simp [hh, hc]
      · rcases hh : h.handle with _ | tok <;> simp [hh, hc]
  · rw [hcev, hm]
    rcases hh : h.handle with _ | tok <;>
      by_cases hc : caller = t <;>
        simp [hh, hc]

/-- C4 witness: a cross-thread `reschedule` of a pending handle (two
markers) and the matching `cancel` bookkeeping at concrete inputs. -/
theorem C4_wake_marker_witness :
    (∃ app' h',
       CallbackHandle.reschedule ⟨2, some 4, some 9, 0, none⟩
           ⟨[⟨4, 9, 2⟩], 5, [], some 0⟩ 1 20 (some 1) none =
         Except.ok (app', h') ∧
       app'.events =
         ([] : List AppEvent) ++
           (if (1 : Nat) = 0 then []
            else if (some 4 : Option Nat) = none then [AppEvent.wakeUpEvent]
            else [AppEvent.wakeUpEvent, AppEvent.wakeUpEvent]) ∧
       (app'.events ≠ ([] : List AppEvent) ↔ (1 : Nat) ≠ 0)) ∧
    ((CallbackHandle.cancel ⟨2, some 4, some 9, 0, none⟩
        ⟨[⟨4, 9, 2⟩], 5, [], some 0⟩ 1).1.events =
       ([] : List AppEvent) ++
         (if (1 : Nat) ≠ 0 ∧ (some 4 : Option Nat) ≠ none
          then [AppEvent.wakeUpEvent] else [])) :=
  C4_wake_marker_policy ⟨[⟨4, 9, 2⟩], 5, [], some 0⟩ ⟨2, some 4, some 9, 0, none⟩
    1 0 20 (some 1) none rfl (by decide)

/-- Formalization of C8's error condition for `call_later` as claimed:
supplying neither a relative nor an absolute time always raises an
argument error. -/
def callLaterRaisesWhenNeitherGiven : Prop :=
  ∀ (app : SchedApp) (caller : Nat) (now : Int) (hid : Nat) (every : Option Int),
    ∃ msg, app.callLater caller now hid none none every = Except.error msg

/-- C8 counterexample: `call_later(callback, every=2)` supplies neither
`after` nor `at` yet succeeds, because the code defaults `after` to 0 when
a recurrence interval is present. -/
theorem C8_call_later_counterexample : ¬ callLaterRaisesWhenNeitherGiven := by
  intro hcl
  obtain ⟨msg, hmsg⟩ := hcl ⟨[], 0, [], some 0⟩ 0 0 0 (some 2)
  rw [show SchedApp.callLater ⟨[], 0, [], some 0⟩ 0 0 0 none none (some 2) =
      Except.ok (⟨[⟨0, 0, 0⟩], 1, [], some 0⟩, ⟨0, some 0, some 0, 0, some 2⟩)
    from rfl] at hmsg
  exact Except.noConfusion hmsg

/-- Reduction of `call_later` to `reschedule`: it raises exactly when both
times are given or all of `after`, `at` and `every` are absent, and
otherwise reschedules a fresh handle by the computed relative delay. -/
theorem callLater_eq (app : SchedApp) (caller : Nat) (now : Int) (hid : Nat)
    (a at_ ev : Option Int) :
    app.callLater caller now hid a at_ ev =
      if (a = none ∧ at_ = none ∧ ev = none) ∨ (a ≠ none ∧ at_ ≠ none) then
        Except.error "exactly one of 'after' and 'at' must be given"
      else
        CallbackHandle.reschedule ⟨hid, none, none, 0, ev⟩ app caller now
          (some
            (match a, at_ with
             | none, none => 0
             | none, some atv => atv - now
             | some av, _ => av))
          none := by
  rcases a with _ | av <;> rcases at_ with _ | atv <;> rcases ev with _ | evv <;>
    simp [SchedApp.callLater]

/-- C8 (amended): `reschedule` raises an argument error exactly when both
or neither of the relative and the absolute time are given (returning
before any scheduler state is produced); `call_later` raises exactly when
both are given, or when neither is given and no recurrence interval is
present (with `every` given, `after` defaults to 0 instead of raising);
and a negative relative delay does not raise but is clamped to zero, so
the fire time is `now`. -/
theorem C8_argument_error_policy :
    (∀ (h : CallbackHandle) (app : SchedApp) (caller : Nat) (now : Int)
        (a t : Option Int),
      (∃ r, h.reschedule app caller now a t = Except.ok r) ↔
        exactlyOneGiven a t) ∧
    (∀ (app : SchedApp) (caller : Nat) (now : Int) (hid : Nat)
        (a at_ ev : Option Int),
      (∃ r, app.callLater caller now hid a at_ ev = Except.ok r) ↔
        ¬((a ≠ none ∧ at_ ≠ none) ∨ (a = none ∧ at_ = none ∧ ev = none))) ∧
    (∀ (h : CallbackHandle) (app : SchedApp) (caller : Nat) (now x : Int),
      x ≤ 0 →
      ∃ app' h',
        h.reschedule app caller now (some x) none = Except.ok (app', h') ∧
        h'.nextCallAt = some now) := by
  refine ⟨?_, ?_, ?_⟩
  · intro h app caller now a t
    constructor
    · rintro ⟨r, hr⟩
      rcases a with _ | av <;> rcases t with _ | tv
      · exact absurd hr (by simp [CallbackHandle.reschedule])
      · simp [exactlyOneGiven]
      · simp [exactlyOneGiven]
      · exact absurd hr (by simp [CallbackHandle.reschedule])
    · intro hv
      exact ⟨_, reschedule_ok_shape h app caller now a t hv⟩
  · intro app caller now hid a at_ ev
    rw [callLater_eq]
    by_cases hcond : (a = none ∧ at_ = none ∧ ev = none) ∨ (a ≠ none ∧ at_ ≠ none)
    · rw [if_pos hcond]
      apply iff_of_false
      · rintro ⟨r, hr⟩
        exact Except.noConfusion hr
      · intro hneg
        apply hneg
        tauto
    · rw [if_neg hcond]
      apply iff_of_true
      · exact ⟨_, reschedule_ok_shape _ app caller now _ none (by simp [exactlyOneGiven])⟩
      · tauto
  · intro h app caller now x hx
    refine ⟨_, _,
      reschedule_ok_shape h app caller now (some x) none
        (by simp [exactlyOneGiven]), ?_⟩
    show some (now + afterClamped now (some x) none) = some now
    unfold afterClamped
    simp only [Option.getD_some]
    rw [max_eq_right hx, add_zero]

/-- C8 witness: a reschedule with the negative delay `-3` succeeds and
clamps the fire time to the current instant. -/
theorem C8_argument_error_witness :
    ∃ app' h',
      CallbackHandle.reschedule ⟨0, none, none, 0, none⟩ ⟨[], 0, [], some 0⟩
          0 7 (some (-3)) none = Except.ok (app', h') ∧
      h'.nextCallAt = some 7 :=
  C8_argument_error_policy.2.2 ⟨0, none, none, 0, none⟩ ⟨[], 0, [], some 0⟩
    0 7 (-3) (by decide)

/-! ### `SelectableQueue` from `concurrency.py` -/

/-- State of a `SelectableQueue` built over the default unbounded
`queue.Queue`: the FIFO contents and the number of pending notification
bytes in the self-pipe of the `FDNotifier` (each `notify()` writes one
byte, `drain()` reads them all). -/
structure SelQueue : Type where
  items : List Nat
  pending : Nat
deriving DecidableEq

namespace SelQueue

/-- Model of `FDNotifier.drain` as seen through the queue: reads every
available byte from the readable end of the pipe. -/
def drain (q : SelQueue) : SelQueue :=
  { q with pending := 0 }

/-- Model of `SelectableQueue.put` on the default unbounded queue: the
inner `Queue.put` appends (never raising `Full`), then the notifier is
signalled. -/
def put (q : SelQueue) (x : Nat) : SelQueue :=
  { items := q.items ++ [x], pending := q.pending + 1 }

/-- Model of the `get_nowait` loop body of `get_all`: pops the front of
the FIFO, or reports `Queue.Empty`. -/
def getNowait (q : SelQueue) : Option (Nat × SelQueue) :=
  match q.items with
  | [] => none
  | x :: rest => some (x, { q with items := rest })

/-- The `while True: result.append(get_nowait())` loop of `get_all`,
expressed on the FIFO contents: collects elements until `Queue.Empty` and
returns them with the (necessarily empty) remainder. -/
def popAll : List Nat → List Nat × List Nat
  | [] => ([], [])
  | x :: rest =>
      let p := popAll rest
      (x :: p.1, p.2)

/-- Model of `SelectableQueue.get_all`: drains the notifier first, then
repeatedly pops without blocking until the queue is empty, returning the
collected items.  The function is total, so the model never blocks. -/
def get_all (q : SelQueue) : SelQueue × List Nat :=
  let q1 := q.drain
  let p := popAll q1.items
  ({ q1 with items := p.2 }, p.1)

end SelQueue

theorem popAll_spec (l : List Nat) : SelQueue.popAll l = (l, []) := by
  induction l with
  | nil => rfl
  | cons x rest ih => simp [SelQueue.popAll, ih]

theorem foldl_put_items (q : SelQueue) (xs : List Nat) :
    (xs.foldl SelQueue.put q).items = q.items ++ xs := by
  induction xs generalizing q with
  | nil => simp
  | cons x rest ih =>
      simp only [List.foldl_cons, ih, SelQueue.put]
      simp

/-- C10: after any sequence of `put` calls, a single `get_all` drains the
notifier and returns exactly the items that were put and not yet
retrieved, in FIFO order of insertion (possibly empty), leaving the queue
empty with no pending notification; `get_all` is a total function on the
model, hence never blocks. -/
theorem C10_get_all_fifo (q : SelQueue) (xs : List Nat) :
    (xs.foldl SelQueue.put q).get_all =
      ({ items := [], pending := 0 }, q.items ++ xs) := by
  unfold SelQueue.get_all SelQueue.drain
  simp only [foldl_put_items]
  simp [popAll_spec]

/-! ### `ThreadPoolJob` from `concurrency.py` -/

/-- A record of one handler invocation, with the handler's identity and
the argument it received. -/
inductive HandlerCall : Type
  | onResult (f : Nat) (v : Option Nat)
  | onError (f : Nat) (e : Nat)
  | onTerminated (f : Nat) (e : Option Nat)
deriving DecidableEq

/-- State of a `ThreadPoolJob`: `_result_and_error` (absent until the job
is resolved; on success the error component is `none`, on failure it
carries the exception, modelled as a `Nat`), and the three optional
handler slots `_on_result`, `_on_error`, `_on_terminated` (handlers
modelled by identifiers; the source also rejects non-callable handlers,
which has no counterpart for identifiers). -/
structure PoolJob : Type where
  resultAndError : Option (Option Nat × Option Nat)
  onResult : Option Nat
  onError : Option Nat
  onTerminated : Option Nat
deriving DecidableEq

namespace PoolJob

/-- Model of `_call_result_handler_if_needed`: returns the handler
invocations it performs (one, when the job is resolved without error and a
result handler is installed). -/
def callResultHandlerIfNeeded (j : PoolJob) : List HandlerCall :=
  match j.resultAndError, j.onResult with
  | some (r, none), some f => [HandlerCall.onResult f r]
  | _, _ => []

/-- Model of `_call_error_handler_if_needed`. -/
def callErrorHandlerIfNeeded (j : PoolJob) : List HandlerCall :=
  match j.resultAndError, j.onError with
  | some (_, some e), some f => [HandlerCall.onError f e]
  | _, _ => []

/-- Model of `_call_termination_handler_if_needed`: fires on any resolved
outcome, passing the error component (which is `none` on success). -/
def callTerminationHandlerIfNeeded (j : PoolJob) : List HandlerCall :=
  match j.resultAndError, j.onTerminated with
  | some (_, e), some f => [HandlerCall.onTerminated f e]
  | _, _ => []

/-- Model of `ThreadPoolJob._notify`: resolving twice is an error;
otherwise the outcome is stored and all three conditional handler calls
run, in the source's order. -/
def notify (j : PoolJob) (result error : Option Nat) :
    Except String (PoolJob × List HandlerCall) :=
  if j.resultAndError ≠ none then
    Except.error "job cannot be resolved twice"
  else
    let j1 := { j with resultAndError := some (result, error) }
    Except.ok (j1,
      j1.callResultHandlerIfNeeded ++ j1.callErrorHandlerIfNeeded ++
        j1.callTerminationHandlerIfNeeded)

/-- Model of `ThreadPoolJob.catch_`: a second error handler is rejected
before any mutation; otherwise the slot is filled and the handler fires
immediately when an error outcome is already known. -/
def catch_ (j : PoolJob) (f : Nat) : Except String (PoolJob × List HandlerCall) :=
  if j.onError ≠ none then
    Except.error "multiple error handlers are not supported"
  else
    let j1 := { j with onError := some f }
    Except.ok (j1, j1.callErrorHandlerIfNeeded)

/-- Model of `ThreadPoolJob.then`: a second result handler is rejected
before any mutation; otherwise the slot is filled, the handler fires
immediately when a success outcome is already known, and an optional error
handler is forwarded to `catch_`.  When that nested `catch_` raises, the
source leaves the already-installed result handler in place; the `Except`
error of this model keeps only the message of that case. -/
def then_ (j : PoolJob) (f : Nat) (onErr : Option Nat) :
    Except String (PoolJob × List HandlerCall) :=
  if j.onResult ≠ none then
    Except.error "multiple result handlers are not supported"
  else
    let j1 := { j with onResult := some f }
    let calls1 := j1.callResultHandlerIfNeeded
    match onErr with
    | some g =>
        match j1.catch_ g with
        | Except.ok p => Except.ok (p.1, calls1 ++ p.2)
        | Except.error msg => Except.error msg
    | none => Except.ok (j1, calls1)

/-- Model of `ThreadPoolJob.finally_`. -/
def finally_ (j : PoolJob) (f : Nat) : Except String (PoolJob × List HandlerCall) :=
  if j.onTerminated ≠ none then
    Except.error "multiple termination handlers are not supported"
  else
    let j1 := { j with onTerminated := some f }
    Except.ok (j1, j1.callTerminationHandlerIfNeeded)

end PoolJob

/-- C7: for each handler slot, registering on an already-occupied slot
raises a configuration error before any mutation or invocation, while
registering once the outcome is resolved fires the appropriate handler
immediately and synchronously in the registering call (with the resolved
value or error as argument); registering `then` before resolution, or on
an error outcome, fires nothing. -/
theorem C7_handler_slots :
    (∀ (j : PoolJob) (f g : Nat) (onErr : Option Nat),
      j.onResult = some g →
      j.then_ f onErr = Except.error "multiple result handlers are not supported") ∧
    (∀ (j : PoolJob) (f g : Nat),
      j.onError = some g →
      j.catch_ f = Except.error "multiple error handlers are not supported") ∧
    (∀ (j : PoolJob) (f g : Nat),
      j.onTerminated = some g →
      j.finally_ f = Except.error "multiple termination handlers are not supported") ∧
    (∀ (j : PoolJob) (f : Nat) (r : Option Nat),
      j.onResult = none → j.resultAndError = some (r, none) →
      j.then_ f none =
        Except.ok ({ j with onResult := some f }, [HandlerCall.onResult f r])) ∧
    (∀ (j : PoolJob) (f : Nat) (r : Option Nat) (e : Nat),
      j.onResult = none → j.resultAndError = some (r, some e) →
      j.then_ f none = Except.ok ({ j with onResult := some f }, [])) ∧
    (∀ (j : PoolJob) (f : Nat) (r : Option Nat) (e : Nat),
      j.onError = none → j.resultAndError = some (r, some e) →
      j.catch_ f =
        Except.ok ({ j with onError := some f }, [HandlerCall.onError f e])) ∧
    (∀ (j : PoolJob) (f : Nat) (r e : Option Nat),
      j.onTerminated = none → j.resultAndError = some (r, e) →
      j.finally_ f =
        Except.ok ({ j with onTerminated := some f },
          [HandlerCall.onTerminated f e])) ∧
    (∀ (j : PoolJob) (f : Nat),
      j.onResult = none → j.resultAndError = none →
      j.then_ f none = Except.ok ({ j with onResult := some f }, [])) := by
  refine ⟨?_, ?_, ?_, ?_, ?_, ?_, ?_, ?_⟩
  · intro j f g onErr hg
    simp [PoolJob.then_, hg]
  · intro j f g hg
    simp [PoolJob.catch_, hg]
  · intro j f g hg
    simp [PoolJob.finally_, hg]
  · intro j f r h1 h2
    simp [PoolJob.then_, h1, PoolJob.callResultHandlerIfNeeded, h2]
  · intro j f r e h1 h2
    simp [PoolJob.then_, h1, PoolJob.callResultHandlerIfNeeded, h2]
  · intro j f r e h1 h2
    simp [PoolJob.catch_, h1, PoolJob.callErrorHandlerIfNeeded, h2]
  · intro j f r e h1 h2
    simp [PoolJob.finally_, h1, PoolJob.callTerminationHandlerIfNeeded, h2]
  · intro j f h1 h2
    simp [PoolJob.then_, h1, PoolJob.callResultHandlerIfNeeded, h2]

/-- C7 witness: registering a result handler on a job already resolved
with value 42 fires the handler immediately with 42. -/
theorem C7_handler_slots_witness :
    PoolJob.then_ ⟨some (some 42, none), none, none, none⟩ 1 none =
      Except.ok (⟨some (some 42, none), some 1, none, none⟩,
        [HandlerCall.onResult 1 (some 42)]) :=
  C7_handler_slots.2.2.2.1 ⟨some (some 42, none), none, none, none⟩ 1 (some 42)
    rfl rfl

/-! ### The ordered object container: `ObjectContainerMixin` over `List` -/

/-- A widget: `wid` models Python object identity (widgets built by
separate `_create_widget_for_item` calls are distinct objects), `addr`
models the `id()` value used as the comparison tie-breaker in
`_compare_widgets`. -/
structure Widget : Type where
  wid : Nat
  addr : Nat
deriving DecidableEq

/-- Lookup in an insertion-ordered association list, modelling Python
`dict.get` (`dict[k]` raising `KeyError` corresponds to `none`, which the
callers in the source either check for or rule out). -/
def afind {α β : Type} [DecidableEq α] : List (α × β) → α → Option β
  | [], _ => none
  | (k, v) :: rest, key => if key = k then some v else afind rest key

/-- Update in an insertion-ordered association list, modelling Python
`dict[k] = v`: an existing key is overwritten in place, a new key is
appended at the end. -/
def aupdate {α β : Type} [DecidableEq α] : List (α × β) → α → β → List (α × β)
  | [], k, v => [(k, v)]
  | (k0, v0) :: rest, k, v =>
      if k = k0 then (k, v) :: rest else (k0, v0) :: aupdate rest k v

/-- Deletion from an insertion-ordered association list, modelling Python
`del d[k]` after a presence check. -/
def aerase {α β : Type} [DecidableEq α] : List (α × β) → α → List (α × β)
  | [], _ => []
  | (k0, v0) :: rest, k => if k = k0 then rest else (k0, v0) :: aerase rest k

theorem afind_aupdate_self {α β : Type} [DecidableEq α]
    (l : List (α × β)) (k : α) (v : β) : afind (aupdate l k v) k = some v := by
  induction l with
  | nil => simp [aupdate, afind]
  | cons p rest ih =>
      obtain ⟨k0, v0⟩ := p
      by_cases hk : k = k0 <;> simp [aupdate, afind, hk, ih]

theorem afind_aupdate_ne {α β : Type} [DecidableEq α]
    (l : List (α × β)) (k key : α) (v : β) (hne : key ≠ k) :
    afind (aupdate l k v) key = afind l key := by
  induction l with
  | nil => simp [aupdate, afind, hne]
  | cons p rest ih =>
      obtain ⟨k0, v0⟩ := p
      by_cases hk : k = k0
      · subst hk
        simp [aupdate, afind, hne]
      · by_cases hkey : key = k0 <;> simp [aupdate, afind, hk, hkey, ih]

theorem afind_aerase_ne {α β : Type} [DecidableEq α]
    (l : List (α × β)) (k key : α) (hne : key ≠ k) :
    afind (aerase l k) key = afind l key := by
  induction l with
  | nil => simp [aerase]
  | cons p rest ih =>
      obtain ⟨k0, v0⟩ := p
      by_cases hk : k = k0
      · subst hk
        simp [aerase, afind, hne]
      · by_cases hkey : key = k0 <;> simp [aerase, afind, hk, hkey, ih]

theorem aupdate_of_afind_none {α β : Type} [DecidableEq α]
    (l : List (α × β)) (k : α) (v : β) (h : afind l k = none) :
    aupdate l k v = l ++ [(k, v)] := by
  induction l with
  | nil => simp [aupdate]
  | cons p rest ih =>
      obtain ⟨k0, v0⟩ := p
      by_cases hk : k = k0
      · subst hk
        simp [afind] at h
      · simp [afind, hk] at h
        simp [aupdate, hk, ih h]

theorem afind_isSome_iff_mem {α β : Type} [DecidableEq α]
    (l : List (α × β)) (k : α) :
    (afind l k).isSome = true ↔ k ∈ l.map Prod.fst := by
  induction l with
  | nil => simp [afind]
  | cons p rest ih =>
      obtain ⟨k0, v0⟩ := p
      by_cases hk : k = k0 <;> simp [afind, hk, ih]

theorem afind_eq_none_iff {α β : Type} [DecidableEq α]
    (l : List (α × β)) (k : α) :
    afind l k = none ↔ k ∉ l.map Prod.fst := by
  rw [← afind_isSome_iff_mem]
  cases afind l k <;> simp

theorem mem_of_afind_some {α β : Type} [DecidableEq α]
    {l : List (α × β)} {k : α} {v : β} (h : afind l k = some v) :
    (k, v) ∈ l := by
  induction l with
  | nil => simp [afind] at h
  | cons p rest ih =>
      obtain ⟨k0, v0⟩ := p
      by_cases hk : k = k0
      · subst hk
        simp [afind] at h
        simp [h]
      · simp [afind, hk] at h
        exact List.mem_cons_of_mem _ (ih h)

theorem aerase_sublist {α β : Type} [DecidableEq α]
    (l : List (α × β)) (k : α) : (aerase l k).Sublist l := by
  induction l with
  | nil => simp [aerase]
  | cons p rest ih =>
      obtain ⟨k0, v0⟩ := p
      by_cases hk : k = k0
      · simp [aerase, hk]
      · simpa [aerase, hk] using ih

theorem afind_aerase_self {α β : Type} [DecidableEq α]
    (l : List (α × β)) (k : α) (hnd : (l.map Prod.fst).Nodup) :
    afind (aerase l k) k = none := by
  induction l with
  | nil => simp [aerase, afind]
  | cons p rest ih =>
      obtain ⟨k0, v0⟩ := p
      simp only [List.map_cons, List.nodup_cons] at hnd
      by_cases hk : k = k0
      · have hre : aerase ((k0, v0) :: rest) k = rest := by simp [aerase, hk]
        rw [hre, afind_eq_none_iff, hk]
        exact hnd.1
      · simp [aerase, afind, hk]
        exact ih hnd.2

/-- Replacement of Python 2's `cmp` defined at the top of `mixins.py`:
`(a > b) - (a < b)` (the name `cmp` itself is taken by Mathlib). -/
def cmpPy (a b : Nat) : Int :=
  (if a > b then 1 else 0) - (if a < b then 1 else 0)

/-- Python's `x or y` on integers, as used in `_compare_widgets` (returns
`x` when it is non-zero, `y` otherwise). -/
def intOr (x y : Int) : Int :=
  if x ≠ 0 then x else y

/-- State of an `ObjectContainerMixin` mixed into a `List` widget (the
`ObjectList` configuration).  `keyf` is `_key_function` over business
objects (modelled as naturals); `body` holds the list box contents in
visual order (`add_widget` wraps each widget in an `AttrMap` and
`iterwidgets` unwraps again, so the model stores the bare widgets);
`widgetsByItems` and `itemsByWidgets` are the dictionaries
`_widgets_by_items` and `_items_by_widgets`; `focus` is the focus position
of the underlying `SimpleFocusListWalker`, `none` exactly when the list is
empty. -/
structure ContainerState : Type where
  keyf : Nat → Int
  body : List Widget
  widgetsByItems : List (Nat × Widget)
  itemsByWidgets : List (Widget × Nat)
  focus : Option Nat

namespace ContainerState

/-- The pristine container produced by `ObjectContainerMixin.__init__`
with a given key function. -/
def empty (kf : Nat → Int) : ContainerState :=
  { keyf := kf, body := [], widgetsByItems := [], itemsByWidgets := [], focus := none }

/-- Model of `_extract_item_from_widget`: the dictionary access
`_items_by_widgets[widget]`.  A missing key raises `KeyError` in the
source; well-formed states rule that out, and the model defaults to
item 0 there. -/
def extractItem (s : ContainerState) (w : Widget) : Nat :=
  (afind s.itemsByWidgets w).getD 0

/-- Model of `_compare_items`: compares the derived keys, yielding 0, 1
or -1. -/
def compareItems (s : ContainerState) (first second : Nat) : Int :=
  let k1 := s.keyf first
  let k2 := s.keyf second
  if k1 = k2 then 0 else if k1 > k2 then 1 else -1

/-- Model of `_compare_widgets`: item comparison first, ties broken by
`cmp(id(first), id(second))` through Python's `or`. -/
def compareWidgets (s : ContainerState) (first second : Widget) : Int :=
  intOr (s.compareItems (s.extractItem first) (s.extractItem second))
    (cmpPy first.addr second.addr)

/-- The sort relation induced by `_compare_widgets` through
`functools.cmp_to_key`: `a` sorts no later than `b` iff the comparator is
non-positive. -/
def widgetLe (s : ContainerState) (a b : Widget) : Prop :=
  s.compareWidgets a b ≤ 0

instance (s : ContainerState) : DecidableRel s.widgetLe := fun a b =>
  inferInstanceAs (Decidable (s.compareWidgets a b ≤ 0))

/-- The derived key of the item behind a widget. -/
def keyOf (s : ContainerState) (w : Widget) : Int :=
  s.keyf (s.extractItem w)

/-- Focus adjustment of urwid's `MonitoredFocusList` when the entry at
index `i` is removed and `newLen` entries remain (modelled from the
behaviour of `SimpleFocusListWalker`, the walker used by `List`): the
focus follows the focused entry, clamps to the end when the focused entry
was cut off, and clears when the list empties. -/
def adjustFocusAfterRemoval (focus : Option Nat) (i newLen : Nat) : Option Nat :=
  match focus with
  | none => none
  | some f =>
      if newLen = 0 then none
      else if i < f then some (f - 1)
      else if f < newLen then some f
      else some (newLen - 1)

/-- Model of `List.add_widget(widget, index)`: wraps the widget in an
`AttrMap` (invisible here, as `iterwidgets` unwraps) and inserts at
`index`, `none` meaning append.  The walker adopts focus 0 when the list
was empty and shifts the focus right when the insertion happens at or
before the focused position. -/
def addWidget (s : ContainerState) (w : Widget) (index : Option Nat) :
    ContainerState :=
  let i := match index with
           | none => s.body.length
           | some i => i
  { s with
      body := s.body.insertIdx i w,
      focus :=
        match s.focus with
        | none => some 0
        | some f => if i ≤ f then some (f + 1) else some f }

/-- Model of `List.remove_widget(widget)` including the `None` argument
that `remove_item` can pass for an absent item: a linear identity scan
for the removal index followed by `remove_widget_at`, i.e.
`body.pop(index)`. -/
def removeWidget (s : ContainerState) (w : Option Widget) : ContainerState :=
  match s.body.findIdx? (fun x => decide (some x = w)) with
  | none => s
  | some i =>
      { s with
          body := s.body.eraseIdx i,
          focus := adjustFocusAfterRemoval s.focus i (s.body.length - 1) }

/-- Model of the scan of `_get_insertion_index_for_item` over a widget
list: `ValueError` when the item is already present, otherwise the first
index whose item compares strictly greater, `none` meaning append. -/
def insertionIndexGo (s : ContainerState) (item : Nat) :
    List Widget → Except Unit (Option Nat)
  | [] => Except.ok none
  | w :: rest =>
      let existing := s.extractItem w
      if existing = item then Except.error ()
      else if s.compareItems existing item > 0 then Except.ok (some 0)
      else (insertionIndexGo s item rest).map (fun r => r.map (fun i => i + 1))

/-- Model of `_get_insertion_index_for_item` itself, scanning
`iterwidgets()`. -/
def insertionIndexForItem (s : ContainerState) (item : Nat) :
    Except Unit (Option Nat) :=
  insertionIndexGo s item s.body

/-- Model of `_create_and_insert_widget_for_item`.  The subclass hook
`_create_widget_for_item` is modelled by the parameter `w`, the freshly
built widget, and `_prepare_widget` is a no-op.  Both dictionaries are
updated first, exactly as in the source; a `ValueError` of the insertion
scan is swallowed by the caller `get_widget_for_item`, so in that case the
state keeps the dictionary updates and no widget is returned. -/
def createAndInsertWidgetForItem (s : ContainerState) (item : Nat) (w : Widget) :
    ContainerState × Option Widget :=
  let s1 := { s with
      widgetsByItems := aupdate s.widgetsByItems item w,
      itemsByWidgets := aupdate s.itemsByWidgets w item }
  match insertionIndexForItem s1 item with
  | Except.error _ => (s1, none)
  | Except.ok idx => (s1.addWidget w idx, some w)

/-- Model of `get_widget_for_item(item, create_if_missing=True)`; the
`create_if_missing=False` variant is the bare lookup
`afind s.widgetsByItems item`. -/
def getWidgetForItem (s : ContainerState) (item : Nat) (w : Widget) :
    ContainerState × Option Widget :=
  match afind s.widgetsByItems item with
  | some wE => (s, some wE)
  | none => s.createAndInsertWidgetForItem item w

/-- Model of `add_item`: delegates to `get_widget_for_item` with
`create_if_missing=True`. -/
def addItem (s : ContainerState) (item : Nat) (w : Widget) :
    ContainerState × Option Widget :=
  s.getWidgetForItem item w

/-- Model of `remove_item`: looks up the widget (`None` when absent),
removes it from the list box, then `del self._widgets_by_items[item]`,
whose `KeyError` on an absent item becomes the `Except.error`.  Note that
`_items_by_widgets` is left untouched. -/
def removeItem (s : ContainerState) (item : Nat) :
    Except Unit (ContainerState × Option Widget) :=
  let w := afind s.widgetsByItems item
  let s1 := s.removeWidget w
  match afind s1.widgetsByItems item with
  | none => Except.error ()
  | some _ =>
      Except.ok ({ s1 with widgetsByItems := aerase s1.widgetsByItems item }, w)

/-- Model of `_clear_body` (`self.body[:] = []`): the walker loses its
focus together with its contents. -/
def clearBody (s : ContainerState) : ContainerState :=
  { s with body := [], focus := none }

/-- Model of `List.focused_widget`: `get_focus()` unwrapped to the base
widget. -/
def focusedWidget (s : ContainerState) : Option Widget :=
  match s.focus with
  | none => none
  | some f => s.body[f]?

/-- Model of `selected_item`: the item behind the focused widget, `none`
when nothing is focused (or, in the source, a `KeyError` for an unknown
widget, excluded by well-formedness). -/
def selectedItem (s : ContainerState) : Option Nat :=
  match s.focusedWidget with
  | none => none
  | some w => afind s.itemsByWidgets w

/-- Model of `update_order`: captures the focused widget, sorts all
widgets with `sorted(key=cmp_to_key(_compare_widgets))` (a stable sort,
modelled by Mathlib's stable `insertionSort`), rewrites the emptied body
in that order, and restores `focus_position` to the index of the
previously focused widget when it is still among the widgets.  The final
`self.refresh()` only repaints member widgets and has no state in this
model. -/
def updateOrder (s : ContainerState) : ContainerState :=
  let focusedW := s.focusedWidget
  let ws := List.insertionSort s.widgetLe s.body
  let s1 := s.clearBody
  let s2 := ws.foldl (fun acc w => acc.addWidget w none) s1
  match focusedW with
  | some fw =>
      if fw ∈ ws then { s2 with focus := some (ws.indexOf fw) } else s2
  | none => s2

/-- Freshness of a widget returned by `_create_widget_for_item`: a new
Python object is distinct from, and has an `id()` different from, every
widget the container has ever seen (all of which stay referenced by
`_items_by_widgets`, so their ids are never recycled). -/
def freshWidget (s : ContainerState) (w : Widget) : Prop :=
  ∀ p ∈ s.itemsByWidgets, w.wid ≠ p.1.wid ∧ w.addr ≠ p.1.addr

instance (s : ContainerState) (w : Widget) : Decidable (s.freshWidget w) := by
  unfold ContainerState.freshWidget
  infer_instance

/-- Well-formedness of a container state: every displayed widget maps to
an item that maps back to it; every object-to-widget entry is displayed
and maps back; widget identities, widget addresses and the keys of both
dictionaries are duplicate-free; the focus exists iff the body is
non-empty and stays in range. -/
def Wf (s : ContainerState) : Prop :=
  (∀ w ∈ s.body, (afind s.itemsByWidgets w).isSome = true ∧
      afind s.widgetsByItems (s.extractItem w) = some w) ∧
  (∀ p ∈ s.widgetsByItems, p.2 ∈ s.body ∧ afind s.itemsByWidgets p.2 = some p.1) ∧
  (s.body.map Widget.wid).Nodup ∧
  (s.body.map Widget.addr).Nodup ∧
  (s.widgetsByItems.map Prod.fst).Nodup ∧
  (s.itemsByWidgets.map Prod.fst).Nodup ∧
  (s.focus = none ↔ s.body = []) ∧
  (∀ f ∈ s.focus.toList, f < s.body.length)

instance (s : ContainerState) : Decidable s.Wf := by
  unfold ContainerState.Wf
  infer_instance

/-- The C2 invariant: the displayed widgets carry non-decreasing derived
keys. -/
def KeySorted (s : ContainerState) : Prop :=
  s.body.Pairwise (fun a b => s.keyOf a ≤ s.keyOf b)

instance (s : ContainerState) : Decidable s.KeySorted := by
  unfold ContainerState.KeySorted
  infer_instance

end ContainerState

/-! ### Container lemmas -/

theorem compareItems_pos_iff (s : ContainerState) (a b : Nat) :
    s.compareItems a b > 0 ↔ s.keyf b < s.keyf a := by
  simp only [ContainerState.compareItems]
  split_ifs with h1 h2 <;> constructor <;> intro h <;> omega

theorem insertIdx_perm {α : Type} (l : List α) (i : Nat) (x : α)
    (h : i ≤ l.length) : (l.insertIdx i x).Perm (x :: l) := by
  induction l generalizing i with
  | nil =>
      cases i with
      | zero => simp
      | succ j => simp at h
  | cons a rest ih =>
      cases i with
      | zero => simp
      | succ j =>
          rw [List.insertIdx_succ_cons]
          exact ((ih j (by simpa using h)).cons a).trans (List.Perm.swap x a rest)

/-- Full specification of the `_get_insertion_index_for_item` scan on a
body that does not yet show the item: the scan succeeds, the produced
index is in range, everything before it has key at most the new key,
everything from it on has strictly greater key, and inserting a widget of
the new key there keeps the body key-sorted. -/
theorem insertion_scan_spec (s : ContainerState) (item : Nat) (w : Widget)
    (hw : s.extractItem w = item) :
    ∀ l : List Widget,
      (∀ x ∈ l, s.extractItem x ≠ item) →
      l.Pairwise (fun a b => s.keyOf a ≤ s.keyOf b) →
      ∃ idx : Option Nat,
        s.insertionIndexGo item l = Except.ok idx ∧
        idx.getD l.length ≤ l.length ∧
        (∀ x ∈ l.take (idx.getD l.length), s.keyOf x ≤ s.keyf item) ∧
        (∀ x ∈ l.drop (idx.getD l.length), s.keyf item < s.keyOf x) ∧
        (l.insertIdx (idx.getD l.length) w).Pairwise
          (fun a b => s.keyOf a ≤ s.keyOf b) := by
  have hkw : s.keyOf w = s.keyf item := by
    unfold ContainerState.keyOf
    rw [hw]
  intro l
  induction l with
  | nil =>
      intro _ _
      exact ⟨none, rfl, by simp, by simp, by simp, by simp⟩
  | cons x rest ih =>
      intro hni hp
      have hx := hni x (List.mem_cons_self x rest)
      rw [List.pairwise_cons] at hp
      by_cases hgt : s.compareItems (s.extractItem x) item > 0
      · have hkx : s.keyf item < s.keyOf x :=
          (compareItems_pos_iff s (s.extractItem x) item).mp hgt
        refine ⟨some 0, ?_, by simp, by simp, ?_, ?_⟩
        · unfold ContainerState.insertionIndexGo
          rw [if_neg hx, if_pos hgt]
        · intro b hb
          simp only [Option.getD_some, List.drop_zero] at hb
          rcases List.mem_cons.mp hb with hb | hb
          · subst hb
            exact hkx
          · exact lt_of_lt_of_le hkx (hp.1 b hb)
        · simp only [Option.getD_some, List.insertIdx_zero]
          rw [List.pairwise_cons]
          refine ⟨?_, List.pairwise_cons.mpr hp⟩
          intro b hb
          rcases List.mem_cons.mp hb with hb | hb
          · subst hb
            rw [hkw]
            exact le_of_lt hkx
          · rw [hkw]
            exact le_of_lt (lt_of_lt_of_le hkx (hp.1 b hb))
      · have hle : s.keyOf x ≤ s.keyf item := by
          have := (compareItems_pos_iff s (s.extractItem x) item).not.mp hgt
          exact not_lt.mp this
        obtain ⟨idx', heq', hb', htake', hdrop', hp'⟩ :=
          ih (fun y hy => hni y (List.mem_cons_of_mem _ hy)) hp.2
        refine ⟨idx'.map (fun i => i + 1), ?_, ?_, ?_, ?_, ?_⟩
        · unfold ContainerState.insertionIndexGo
          rw [if_neg hx, if_neg hgt, heq']
          rfl
        · cases idx' with
          | none => simp
          | some i =>
              simp only [Option.map_some', Option.getD_some, List.length_cons] at hb' ⊢
              omega
        · intro b hb
          cases idx' with
          | none =>
              rw [show ((Option.map (fun i => i + 1) none).getD (x :: rest).length) =
                  (x :: rest).length from rfl, List.take_length] at hb
              rcases List.mem_cons.mp hb with hb2 | hb2
              · subst hb2
                exact hle
              · exact htake' b (by simpa [List.take_length] using hb2)
          | some i =>
              rw [show ((Option.map (fun i => i + 1) (some i)).getD (x :: rest).length) =
                  i + 1 from rfl, List.take_succ_cons] at hb
              rcases List.mem_cons.mp hb with hb2 | hb2
              · subst hb2
                exact hle
              · exact htake' b hb2
        · intro b hb
          cases idx' with
          | none =>
              rw [show ((Option.map (fun i => i + 1) none).getD (x :: rest).length) =
                  (x :: rest).length from rfl, List.drop_length] at hb
              simp at hb
          | some i =>
              rw [show ((Option.map (fun i => i + 1) (some i)).getD (x :: rest).length) =
                  i + 1 from rfl, List.drop_succ_cons] at hb
              exact hdrop' b hb
        · cases idx' with
          | none =>
              rw [show ((Option.map (fun i => i + 1) none).getD (x :: rest).length) =
                  rest.length + 1 from rfl]
              rw [List.insertIdx_succ_cons, List.pairwise_cons]
              constructor
              · intro b hb
                have hb2 := (List.mem_insertIdx (le_refl rest.length)).mp hb
                rcases hb2 with hb2 | hb2
                · subst hb2
                  rw [hkw]
                  exact hle
                · exact hp.1 b hb2
              · simpa using hp'
          | some i =>
              rw [show ((Option.map (fun i => i + 1) (some i)).getD (x :: rest).length) =
                  i + 1 from rfl]
              rw [List.insertIdx_succ_cons, List.pairwise_cons]
              constructor
              · intro b hb
                have hbnd : i ≤ rest.length := hb'
                have hb2 := (List.mem_insertIdx hbnd).mp hb
                rcases hb2 with hb2 | hb2
                · subst hb2
                  rw [hkw]
                  exact hle
                · exact hp.1 b hb2
              · simpa using hp'

theorem fresh_not_in_keys (s : ContainerState) (w : Widget)
    (hf : s.freshWidget w) : afind s.itemsByWidgets w = none := by
  rw [afind_eq_none_iff]
  intro hmem
  obtain ⟨p, hp, hfst⟩ := List.mem_map.mp hmem
  exact (hf p hp).1 (by rw [hfst])

theorem body_mem_keys (s : ContainerState) (hwf : s.Wf) (x : Widget)
    (hx : x ∈ s.body) : x ∈ s.itemsByWidgets.map Prod.fst :=
  (afind_isSome_iff_mem _ _).mp (hwf.1 x hx).1

theorem fresh_ne_of_mem_keys (s : ContainerState) (w x : Widget)
    (hf : s.freshWidget w) (hx : x ∈ s.itemsByWidgets.map Prod.fst) : x ≠ w := by
  obtain ⟨p, hp, hfst⟩ := List.mem_map.mp hx
  intro hxw
  exact (hf p hp).1 (by rw [hfst, hxw])

theorem extract_ne_item_of_absent (s : ContainerState) (item : Nat)
    (hwf : s.Wf) (hab : afind s.widgetsByItems item = none) :
    ∀ x ∈ s.body, s.extractItem x ≠ item := by
  intro x hx hcontra
  have h1 := (hwf.1 x hx).2
  rw [hcontra, hab] at h1
  exact Option.noConfusion h1

theorem add_state_wf (s : ContainerState) (item : Nat) (w : Widget) (i : Nat)
    (f2 : Option Nat)
    (hwf : s.Wf) (hfresh : s.freshWidget w)
    (hab : afind s.widgetsByItems item = none)
    (hbnd : i ≤ s.body.length)
    (hf2 : f2 = match s.focus with
                | none => some 0
                | some f => if i ≤ f then some (f + 1) else some f) :
    ContainerState.Wf
      { keyf := s.keyf,
        body := s.body.insertIdx i w,
        widgetsByItems := aupdate s.widgetsByItems item w,
        itemsByWidgets := aupdate s.itemsByWidgets w item,
        focus := f2 } := by
  obtain ⟨hA, hB, hCw, hCa, hDw, hDi, hFn, hFr⟩ := hwf
  have hwnone : afind s.itemsByWidgets w = none := fresh_not_in_keys s w hfresh
  have hxw : ∀ x ∈ s.body, x ≠ w := fun x hx =>
    fresh_ne_of_mem_keys s w x hfresh
      ((afind_isSome_iff_mem _ _).mp (hA x hx).1)
  have hmem2 : ∀ x : Widget, x ∈ s.body.insertIdx i w ↔ x = w ∨ x ∈ s.body :=
    fun x => List.mem_insertIdx hbnd
  have hwidape : aupdate s.widgetsByItems item w = s.widgetsByItems ++ [(item, w)] :=
    aupdate_of_afind_none _ _ _ hab
  have hitmape : aupdate s.itemsByWidgets w item = s.itemsByWidgets ++ [(w, item)] :=
    aupdate_of_afind_none _ _ _ hwnone
  have hniA : ∀ x ∈ s.body, s.extractItem x ≠ item :=
    extract_ne_item_of_absent s item ⟨hA, hB, hCw, hCa, hDw, hDi, hFn, hFr⟩ hab
  refine ⟨?_, ?_, ?_, ?_, ?_, ?_, ?_, ?_⟩
  · -- every displayed widget round-trips through the two dictionaries
    intro x hx2
    rcases (hmem2 x).mp hx2 with hx | hx
    · subst hx
      constructor
      · show (afind (aupdate s.itemsByWidgets x item) x).isSome = true
        rw [afind_aupdate_self]
        rfl
      · show afind (aupdate s.widgetsByItems item x)
          (ContainerState.extractItem _ x) = some x
        have hex : ContainerState.extractItem
            { keyf := s.keyf,
              body := s.body.insertIdx i x,
              widgetsByItems := aupdate s.widgetsByItems item x,
              itemsByWidgets := aupdate s.itemsByWidgets x item,
              focus := f2 } x = item := by
          show (afind (aupdate s.itemsByWidgets x item) x).getD 0 = item
          rw [afind_aupdate_self]
          rfl
        rw [hex, afind_aupdate_self]
    · have hne := hxw x hx
      have hexeq : ContainerState.extractItem
          { keyf := s.keyf,
            body := s.body.insertIdx i w,
            widgetsByItems := aupdate s.widgetsByItems item w,
            itemsByWidgets := aupdate s.itemsByWidgets w item,
            focus := f2 } x = s.extractItem x := by
        show (afind (aupdate s.itemsByWidgets w item) x).getD 0 = _
        rw [afind_aupdate_ne _ _ _ _ hne]
        rfl
      constructor
      · show (afind (aupdate s.itemsByWidgets w item) x).isSome = true
        rw [afind_aupdate_ne _ _ _ _ hne]
        exact (hA x hx).1
      · rw [hexeq]
        show afind (aupdate s.widgetsByItems item w) (s.extractItem x) = some x
        rw [afind_aupdate_ne _ _ _ _ (hniA x hx)]
        exact (hA x hx).2
  · -- every object-to-widget entry is displayed and maps back
    intro p hp2
    rw [hwidape] at hp2
    rcases List.mem_append.mp hp2 with hp | hp
    · have hpb := hB p hp
      have hne : p.2 ≠ w := hxw p.2 hpb.1
      constructor
      · exact (hmem2 p.2).mpr (Or.inr hpb.1)
      · show afind (aupdate s.itemsByWidgets w item) p.2 = some p.1
        rw [afind_aupdate_ne _ _ _ _ hne]
        exact hpb.2
    · rcases List.mem_singleton.mp hp with rfl
      constructor
      · exact (hmem2 w).mpr (Or.inl rfl)
      · show afind (aupdate s.itemsByWidgets w item) w = some item
        rw [afind_aupdate_self]
  · -- widget identities stay duplicate-free
    have hperm := (insertIdx_perm s.body i w hbnd).map Widget.wid
    refine hperm.symm.nodup ?_
    rw [List.map_cons, List.nodup_cons]
    refine ⟨?_, hCw⟩
    intro hmem
    obtain ⟨x, hx, hxe⟩ := List.mem_map.mp hmem
    obtain ⟨p, hp, hfst⟩ :=
      List.mem_map.mp ((afind_isSome_iff_mem _ _).mp (hA x hx).1)
    exact (hfresh p hp).1 (by rw [hfst, ← hxe])
  · -- widget addresses stay duplicate-free
    have hperm := (insertIdx_perm s.body i w hbnd).map Widget.addr
    refine hperm.symm.nodup ?_
    rw [List.map_cons, List.nodup_cons]
    refine ⟨?_, hCa⟩
    intro hmem
    obtain ⟨x, hx, hxe⟩ := List.mem_map.mp hmem
    obtain ⟨p, hp, hfst⟩ :=
      List.mem_map.mp ((afind_isSome_iff_mem _ _).mp (hA x hx).1)
    exact (hfresh p hp).2 (by rw [hfst, ← hxe])
  · -- object keys stay duplicate-free
    show ((aupdate s.widgetsByItems item w).map Prod.fst).Nodup
    rw [hwidape, List.map_append]
    rw [List.nodup_append]
    refine ⟨hDw, List.nodup_singleton _, ?_⟩
    intro k hk hk1
    simp only [List.map_cons, List.map_nil, List.mem_singleton] at hk1
    subst hk1
    exact (afind_eq_none_iff _ _).mp hab hk
  · -- widget keys stay duplicate-free
    show ((aupdate s.itemsByWidgets w item).map Prod.fst).Nodup
    rw [hitmape, List.map_append]
    rw [List.nodup_append]
    refine ⟨hDi, List.nodup_singleton _, ?_⟩
    intro k hk hk1
    simp only [List.map_cons, List.map_nil, List.mem_singleton] at hk1
    subst hk1
    exact (afind_eq_none_iff _ _).mp hwnone hk
  · -- the focus exists iff the body is non-empty
    have hlen : (s.body.insertIdx i w).length = s.body.length + 1 :=
      List.length_insertIdx i s.body hbnd
    have hne : s.body.insertIdx i w ≠ [] := by
      intro hcontra
      rw [hcontra] at hlen
      simp at hlen
    rcases hfo : s.focus with _ | f
    · rw [hfo] at hf2
      simp only [] at hf2
      subst hf2
      simp [hne]
    · rw [hfo] at hf2
      simp only [] at hf2
      subst hf2
      constructor
      · intro hcontra
        split at hcontra <;> exact Option.noConfusion hcontra
      · intro hcontra
        exact absurd hcontra hne
  · -- the focus stays in range
    have hlen : (s.body.insertIdx i w).length = s.body.length + 1 :=
      List.length_insertIdx i s.body hbnd
    intro f2v hf2v
    rcases hfo : s.focus with _ | f
    · rw [hfo] at hf2
      simp only [] at hf2
      subst hf2
      simp only [Option.toList_some, List.mem_singleton] at hf2v
      subst hf2v
      rw [hlen]
      omega
    · rw [hfo] at hf2
      simp only [] at hf2
      have hfr := hFr f (by rw [hfo]; exact List.mem_singleton.mpr rfl)
      subst hf2
      rw [hlen]
      split at hf2v <;>
        simp only [Option.toList_some, List.mem_singleton] at hf2v <;>
          omega

theorem addItem_present_eq (s : ContainerState) (item : Nat) (w wE : Widget)
    (hfound : afind s.widgetsByItems item = some wE) :
    s.addItem item w = (s, some wE) := by
  unfold ContainerState.addItem ContainerState.getWidgetForItem
  rw [hfound]

/-- Behaviour of `add_item` on a well-formed, key-sorted container that
does not contain the item, fed a fresh widget: it succeeds, inserting the
widget at an index that keeps every smaller-or-equal key before it and
every strictly greater key after it, appends the two dictionary entries,
and preserves well-formedness and sortedness. -/
theorem addItem_absent_spec (s : ContainerState) (item : Nat) (w : Widget)
    (hwf : s.Wf) (hsort : s.KeySorted) (hfresh : s.freshWidget w)
    (hab : afind s.widgetsByItems item = none) :
    ∃ i : Nat,
      i ≤ s.body.length ∧
      s.addItem item w =
        ({ keyf := s.keyf,
           body := s.body.insertIdx i w,
           widgetsByItems := aupdate s.widgetsByItems item w,
           itemsByWidgets := aupdate s.itemsByWidgets w item,
           focus := match s.focus with
                    | none => some 0
                    | some f => if i ≤ f then some (f + 1) else some f }, some w) ∧
      (∀ x ∈ s.body.take i, s.keyOf x ≤ s.keyf item) ∧
      (∀ x ∈ s.body.drop i, s.keyf item < s.keyOf x) ∧
      (s.addItem item w).1.Wf ∧
      (s.addItem item w).1.KeySorted := by
  have hwnone : afind s.itemsByWidgets w = none := fresh_not_in_keys s w hfresh
  have hxw : ∀ x ∈ s.body, x ≠ w := fun x hx =>
    fresh_ne_of_mem_keys s w x hfresh
      ((afind_isSome_iff_mem _ _).mp (hwf.1 x hx).1)
  have hextw : ContainerState.extractItem
      { s with widgetsByItems := aupdate s.widgetsByItems item w,
               itemsByWidgets := aupdate s.itemsByWidgets w item } w = item := by
    show (afind (aupdate s.itemsByWidgets w item) w).getD 0 = item
    rw [afind_aupdate_self]
    rfl
  have hexteq : ∀ x ∈ s.body, ContainerState.extractItem
      { s with widgetsByItems := aupdate s.widgetsByItems item w,
               itemsByWidgets := aupdate s.itemsByWidgets w item } x =
        s.extractItem x := by
    intro x hx
    show (afind (aupdate s.itemsByWidgets w item) x).getD 0 = _
    rw [afind_aupdate_ne _ _ _ _ (hxw x hx)]
    rfl
  have hkeyeq : ∀ x ∈ s.body, ContainerState.keyOf
      { s with widgetsByItems := aupdate s.widgetsByItems item w,
               itemsByWidgets := aupdate s.itemsByWidgets w item } x =
        s.keyOf x := by
    intro x hx
    show s.keyf _ = s.keyf _
    rw [hexteq x hx]
  have hni : ∀ x ∈ s.body, ContainerState.extractItem
      { s with widgetsByItems := aupdate s.widgetsByItems item w,
               itemsByWidgets := aupdate s.itemsByWidgets w item } x ≠ item := by
    intro x hx
    rw [hexteq x hx]
    exact extract_ne_item_of_absent s item hwf hab x hx
  have hpair : s.body.Pairwise (fun a b =>
      ContainerState.keyOf
        { s with widgetsByItems := aupdate s.widgetsByItems item w,
                 itemsByWidgets := aupdate s.itemsByWidgets w item } a ≤
      ContainerState.keyOf
        { s with widgetsByItems := aupdate s.widgetsByItems item w,
                 itemsByWidgets := aupdate s.itemsByWidgets w item } b) := by
    refine hsort.imp_of_mem ?_
    intro a b ha hb hle
    rw [hkeyeq a ha, hkeyeq b hb]
    exact hle
  obtain ⟨idx, hscan, hbnd, htake, hdrop, hpins⟩ :=
    insertion_scan_spec _ item w hextw s.body hni hpair
  have haddeq : s.addItem item w =
      (ContainerState.addWidget
        { s with widgetsByItems := aupdate s.widgetsByItems item w,
                 itemsByWidgets := aupdate s.itemsByWidgets w item } w idx,
        some w) := by
    unfold ContainerState.addItem ContainerState.getWidgetForItem
    rw [hab]
    unfold ContainerState.createAndInsertWidgetForItem
      ContainerState.insertionIndexForItem
    dsimp only
    rw [hscan]
  have hlit : ContainerState.addWidget
      { s with widgetsByItems := aupdate s.widgetsByItems item w,
               itemsByWidgets := aupdate s.itemsByWidgets w item } w idx =
      { keyf := s.keyf,
        body := s.body.insertIdx (idx.getD s.body.length) w,
        widgetsByItems := aupdate s.widgetsByItems item w,
        itemsByWidgets := aupdate s.itemsByWidgets w item,
        focus := match s.focus with
                 | none => some 0
                 | some f =>
                     if idx.getD s.body.length ≤ f then some (f + 1)
                     else some f } := by
    cases idx <;> rfl
  refine ⟨idx.getD s.body.length, hbnd, ?_, ?_, ?_, ?_, ?_⟩
  · rw [haddeq, hlit]
  · intro x hx
    have := htake x hx
    rwa [hkeyeq x (List.mem_of_mem_take hx)] at this
  · intro x hx
    have := hdrop x hx
    rwa [hkeyeq x (List.mem_of_mem_drop hx)] at this
  · rw [haddeq, hlit]
    exact add_state_wf s item w _ _ hwf hfresh hab hbnd rfl
  · rw [haddeq, hlit]
    show List.Pairwise _ (s.body.insertIdx (idx.getD s.body.length) w)
    exact hpins

theorem findIdx_decide_none (l : List Widget) (i : Nat) :
    List.findIdx? (fun x => decide (some x = (none : Option Widget))) l i = none := by
  induction l generalizing i with
  | nil => simp
  | cons x rest ih =>
      rw [List.findIdx?_cons]
      simpa using ih (i + 1)

theorem removeWidget_none (s : ContainerState) : s.removeWidget none = s := by
  unfold ContainerState.removeWidget
  rw [findIdx_decide_none]

theorem findIdx_erase_spec (wv : Widget) (l : List Widget) (hm : wv ∈ l) :
    ∀ start : Nat,
      ∃ j l₁ l₂,
        List.findIdx? (fun x => decide (some x = some wv)) l start = some (start + j) ∧
        l = l₁ ++ wv :: l₂ ∧ l₁.length = j ∧ (∀ x ∈ l₁, x ≠ wv) ∧
        l.eraseIdx j = l₁ ++ l₂ := by
  induction l with
  | nil => exact absurd hm (List.not_mem_nil wv)
  | cons x rest ih =>
      intro start
      by_cases hx : x = wv
      · subst hx
        refine ⟨0, [], rest, ?_, by simp, rfl, by simp, by simp⟩
        rw [List.findIdx?_cons]
        simp
      · have hmr : wv ∈ rest := by
          rcases List.mem_cons.mp hm with hc | hc
          · exact absurd hc.symm hx
          · exact hc
        obtain ⟨j, l₁, l₂, hfind, hdec, hlen, hne, herase⟩ := ih hmr (start + 1)
        refine ⟨j + 1, x :: l₁, l₂, ?_, by rw [hdec]; rfl, by simp [hlen], ?_, ?_⟩
        · rw [List.findIdx?_cons]
          have hpx : (decide (some x = some wv)) = false := by
            simp [hx]
          rw [hpx]
          simp only [Bool.false_eq_true, if_false]
          rw [hfind]
          congr 1
          omega
        · intro y hy
          rcases List.mem_cons.mp hy with hc | hc
          · rw [hc]; exact hx
          · exact hne y hc
        · rw [List.eraseIdx_cons_succ, herase]
          rfl

theorem removeWidget_some_spec (s : ContainerState) (wv : Widget)
    (hm : wv ∈ s.body) (hnd : s.body.Nodup) :
    ∃ l₁ l₂,
      s.body = l₁ ++ wv :: l₂ ∧ wv ∉ l₁ ∧ wv ∉ l₂ ∧
      (s.removeWidget (some wv)).body = l₁ ++ l₂ ∧
      (s.removeWidget (some wv)).widgetsByItems = s.widgetsByItems ∧
      (s.removeWidget (some wv)).itemsByWidgets = s.itemsByWidgets ∧
      (s.removeWidget (some wv)).keyf = s.keyf ∧
      (s.removeWidget (some wv)).focus =
        ContainerState.adjustFocusAfterRemoval s.focus l₁.length
          (s.body.length - 1) := by
  obtain ⟨j, l₁, l₂, hfind, hdec, hlen, hne, herase⟩ :=
    findIdx_erase_spec wv s.body hm 0
  have hfind0 : List.findIdx? (fun x => decide (some x = some wv)) s.body 0 =
      some j := by
    rw [hfind]
    congr 1
    omega
  have hnotl2 : wv ∉ l₁ ++ l₂ := by
    have := hnd
    rw [hdec, List.nodup_middle, List.nodup_cons] at this
    exact this.1
  refine ⟨l₁, l₂, hdec, fun hc => (hne wv hc) rfl,
    fun hc => hnotl2 (List.mem_append.mpr (Or.inr hc)), ?_, ?_, ?_, ?_, ?_⟩
  · unfold ContainerState.removeWidget
    rw [hfind0]
    exact herase
  · unfold ContainerState.removeWidget
    rw [hfind0]
  · unfold ContainerState.removeWidget
    rw [hfind0]
  · unfold ContainerState.removeWidget
    rw [hfind0]
  · unfold ContainerState.removeWidget
    rw [hfind0]
    rw [hlen]

theorem removeItem_absent_eq (s : ContainerState) (item : Nat)
    (hab : afind s.widgetsByItems item = none) :
    s.removeItem item = Except.error () := by
  simp only [ContainerState.removeItem, hab, removeWidget_none]

/-- Behaviour of `remove_item` on a well-formed container that contains
the item: the call succeeds returning the widget, removes the pair from
the object-to-widget dictionary and the widget from the body, leaves the
widget-to-object dictionary untouched, and preserves well-formedness and
key-sortedness. -/
theorem removeItem_present_spec (s : ContainerState) (item : Nat) (wv : Widget)
    (hwf : s.Wf) (hfound : afind s.widgetsByItems item = some wv) :
    ∃ s',
      s.removeItem item = Except.ok (s', some wv) ∧
      s'.Wf ∧
      (s.KeySorted → s'.KeySorted) ∧
      s'.widgetsByItems = aerase s.widgetsByItems item ∧
      s'.itemsByWidgets = s.itemsByWidgets ∧
      s'.keyf = s.keyf ∧
      wv ∉ s'.body ∧
      (∀ x ∈ s'.body, x ∈ s.body) ∧
      afind s'.widgetsByItems item = none := by
  obtain ⟨hA, hB, hCw, hCa, hDw, hDi, hFn, hFr⟩ := hwf
  have hmem : (item, wv) ∈ s.widgetsByItems := mem_of_afind_some hfound
  have hwvb : wv ∈ s.body := (hB _ hmem).1
  have hnd : s.body.Nodup := List.Nodup.of_map Widget.wid hCw
  obtain ⟨l₁, l₂, hdec, hnl1, hnl2, hbody1, hwbi1, hibw1, hkeyf1, hfoc1⟩ :=
    removeWidget_some_spec s wv hwvb hnd
  have hsubl : (l₁ ++ l₂).Sublist s.body := by
    rw [hdec]
    exact (List.append_sublist_append_left l₁).mpr (List.sublist_cons_self wv l₂)
  have hmem12 : ∀ x ∈ s.body, x ≠ wv → x ∈ l₁ ++ l₂ := by
    intro x hx hxne
    rw [hdec] at hx
    rcases List.mem_append.mp hx with hx | hx
    · exact List.mem_append.mpr (Or.inl hx)
    · rcases List.mem_cons.mp hx with hx | hx
      · exact absurd hx hxne
      · exact List.mem_append.mpr (Or.inr hx)
  have hcompute : s.removeItem item =
      Except.ok
        ({ s.removeWidget (some wv) with
            widgetsByItems :=
              aerase (s.removeWidget (some wv)).widgetsByItems item },
          some wv) := by
    simp only [ContainerState.removeItem, hfound, hwbi1]
  have hextR : ∀ x : Widget,
      (s.removeWidget (some wv)).extractItem x = s.extractItem x := by
    intro x
    unfold ContainerState.extractItem
    rw [hibw1]
  have hkeyR : ∀ x : Widget,
      (s.removeWidget (some wv)).keyOf x = s.keyOf x := by
    intro x
    unfold ContainerState.keyOf
    rw [hkeyf1, hextR]
  have hitemnone : afind (aerase s.widgetsByItems item) item = none :=
    afind_aerase_self _ _ hDw
  have hextne : ∀ x ∈ l₁ ++ l₂, s.extractItem x ≠ item := by
    intro x hx hcontra
    have h2 := (hA x (hsubl.subset hx)).2
    rw [hcontra, hfound] at h2
    have hxwv : x = wv := by
      injection h2 with h2
      exact h2.symm
    subst hxwv
    rcases List.mem_append.mp hx with hc | hc
    · exact hnl1 hc
    · exact hnl2 hc
  have hlen : s.body.length = l₁.length + l₂.length + 1 := by
    rw [hdec]
    simp
    omega
  refine ⟨_, hcompute, ⟨?_, ?_, ?_, ?_, ?_, ?_, ?_, ?_⟩, ?_, ?_, ?_,
    ?_, ?_, ?_, ?_⟩
  · -- clause A
    intro x hx0
    have hx : x ∈ l₁ ++ l₂ := by
      rw [← hbody1]
      exact hx0
    have hxb : x ∈ s.body := hsubl.subset hx
    constructor
    · show (afind (s.removeWidget (some wv)).itemsByWidgets x).isSome = true
      rw [hibw1]
      exact (hA x hxb).1
    · show afind (aerase (s.removeWidget (some wv)).widgetsByItems item)
        ((s.removeWidget (some wv)).extractItem x) = some x
      rw [hwbi1, hextR, afind_aerase_ne _ _ _ (hextne x hx)]
      exact (hA x hxb).2
  · -- clause B
    intro p hp0
    have hp : p ∈ aerase s.widgetsByItems item := by
      have hp1 : p ∈ aerase (s.removeWidget (some wv)).widgetsByItems item := hp0
      rw [hwbi1] at hp1
      exact hp1
    have hpold : p ∈ s.widgetsByItems := (aerase_sublist _ _).subset hp
    have hpb := hB p hpold
    have hp1ne : p.1 ≠ item := by
      intro hcontra
      have hmm : item ∈ (aerase s.widgetsByItems item).map Prod.fst :=
        List.mem_map.mpr ⟨p, hp, hcontra⟩
      exact (afind_eq_none_iff _ _).mp hitemnone hmm
    have hp2ne : p.2 ≠ wv := by
      intro hcontra
      have h1 := (hB _ hmem).2
      rw [← hcontra] at h1
      rw [hpb.2] at h1
      injection h1 with h1
      exact hp1ne h1
    constructor
    · show p.2 ∈ (s.removeWidget (some wv)).body
      rw [hbody1]
      exact hmem12 p.2 hpb.1 hp2ne
    · show afind (s.removeWidget (some wv)).itemsByWidgets p.2 = some p.1
      rw [hibw1]
      exact hpb.2
  · -- widget identities
    show ((s.removeWidget (some wv)).body.map Widget.wid).Nodup
    rw [hbody1]
    exact hCw.sublist (hsubl.map _)
  · -- widget addresses
    show ((s.removeWidget (some wv)).body.map Widget.addr).Nodup
    rw [hbody1]
    exact hCa.sublist (hsubl.map _)
  · -- object keys
    show ((aerase (s.removeWidget (some wv)).widgetsByItems item).map
      Prod.fst).Nodup
    rw [hwbi1]
    exact hDw.sublist ((aerase_sublist _ _).map _)
  · -- widget keys
    show ((s.removeWidget (some wv)).itemsByWidgets.map Prod.fst).Nodup
    rw [hibw1]
    exact hDi
  · -- focus none iff empty
    show (s.removeWidget (some wv)).focus = none ↔
      (s.removeWidget (some wv)).body = []
    rw [hbody1, hfoc1]
    have hfne : s.focus ≠ none := by
      intro hcontra
      rw [hFn] at hcontra
      rw [hcontra] at hwvb
      exact List.not_mem_nil wv hwvb
    rcases hfo : s.focus with _ | f
    · exact absurd hfo hfne
    · unfold ContainerState.adjustFocusAfterRemoval
      simp only []
      constructor
      · intro hcontra
        split_ifs at hcontra with h1 <;> try exact Option.noConfusion hcontra
        have h0 : (l₁ ++ l₂).length = 0 := by
          rw [List.length_append]
          omega
        exact List.eq_nil_of_length_eq_zero h0
      · intro hcontra
        have hl0 : l₁.length + l₂.length = 0 := by
          have := congrArg List.length hcontra
          simpa using this
        split_ifs with h1 <;> first | rfl | omega
  · -- focus in range
    intro f2v hf2v
    have hf2v' : f2v ∈ ((s.removeWidget (some wv)).focus).toList := hf2v
    rw [hfoc1] at hf2v'
    show f2v < (s.removeWidget (some wv)).body.length
    rw [hbody1, List.length_append]
    rcases hfo : s.focus with _ | f
    · rw [hfo] at hf2v'
      simp [ContainerState.adjustFocusAfterRemoval] at hf2v'
    · have hfr := hFr f (by rw [hfo]; exact List.mem_singleton.mpr rfl)
      rw [hfo] at hf2v'
      unfold ContainerState.adjustFocusAfterRemoval at hf2v'
      simp only [] at hf2v'
      split_ifs at hf2v' with h1 h2 h3 <;>
        simp only [Option.toList_some, Option.toList_none,
          List.mem_singleton, List.not_mem_nil] at hf2v' <;>
          omega
  · -- key-sortedness is preserved
    intro hsort
    unfold ContainerState.KeySorted at hsort ⊢
    have hpair : (l₁ ++ l₂).Pairwise (fun a b => s.keyOf a ≤ s.keyOf b) :=
      hsort.sublist hsubl
    show ((s.removeWidget (some wv)).body).Pairwise
      (fun a b => (s.removeWidget (some wv)).keyOf a ≤
        (s.removeWidget (some wv)).keyOf b)
    rw [hbody1]
    refine hpair.imp ?_
    intro a b hab2
    rw [hkeyR a, hkeyR b]
    exact hab2
  · -- the dictionary entry is erased
    show aerase (s.removeWidget (some wv)).widgetsByItems item = _
    rw [hwbi1]
  · -- the reverse dictionary is untouched
    show (s.removeWidget (some wv)).itemsByWidgets = _
    rw [hibw1]
  · -- the key function is untouched
    show (s.removeWidget (some wv)).keyf = _
    rw [hkeyf1]
  · -- the removed widget is gone from the body
    show wv ∉ (s.removeWidget (some wv)).body
    rw [hbody1]
    intro hcontra
    rcases List.mem_append.mp hcontra with hc | hc
    · exact hnl1 hc
    · exact hnl2 hc
  · -- the remaining widgets were already displayed
    intro x hx0
    have hx : x ∈ l₁ ++ l₂ := by
      rw [← hbody1]
      exact hx0
    exact hsubl.subset hx
  · -- the object-to-widget entry is gone
    show afind (aerase (s.removeWidget (some wv)).widgetsByItems item) item = none
    rw [hwbi1]
    exact hitemnone

/-- One mutation of the container: `add_item` (with the widget the
subclass factory would build for it) or `remove_item`. -/
inductive ContainerOp : Type
  | addOp (item : Nat) (w : Widget)
  | removeOp (item : Nat)

/-- Application of one mutation.  A `remove_item` of an absent item
raises `KeyError` after its no-op `remove_widget(None)`, leaving the
state unchanged, so the error branch keeps `s`. -/
def applyOp (s : ContainerState) : ContainerOp → ContainerState
  | ContainerOp.addOp item w => (s.addItem item w).1
  | ContainerOp.removeOp item =>
      match s.removeItem item with
      | Except.ok (s', _) => s'
      | Except.error _ => s

/-- Sequential application of mutations. -/
def runOps (s : ContainerState) : List ContainerOp → ContainerState
  | [] => s
  | op :: rest => runOps (applyOp s op) rest

/-- The implicit contract of `_create_widget_for_item`: an added widget
is a freshly built object. -/
def FreshOp (s : ContainerState) : ContainerOp → Prop
  | ContainerOp.addOp _ w => s.freshWidget w
  | ContainerOp.removeOp _ => True

instance (s : ContainerState) (op : ContainerOp) : Decidable (FreshOp s op) := by
  cases op <;> unfold FreshOp <;> infer_instance

/-- Freshness of every widget along an operation sequence. -/
def FreshOps (s : ContainerState) : List ContainerOp → Prop
  | [] => True
  | op :: rest => FreshOp s op ∧ FreshOps (applyOp s op) rest

instance freshOpsDecidable : (ops : List ContainerOp) → (s : ContainerState) →
    Decidable (FreshOps s ops)
  | [], _ => isTrue trivial
  | op :: rest, s =>
      haveI : Decidable (FreshOps (applyOp s op) rest) := freshOpsDecidable rest _
      inferInstanceAs (Decidable (_ ∧ _))

theorem empty_wf (kf : Nat → Int) : (ContainerState.empty kf).Wf := by
  refine ⟨?_, ?_, ?_, ?_, ?_, ?_, ?_, ?_⟩ <;> simp [ContainerState.empty]

theorem empty_keySorted (kf : Nat → Int) : (ContainerState.empty kf).KeySorted := by
  unfold ContainerState.KeySorted ContainerState.empty
  simp

theorem applyOp_preserves (s : ContainerState) (op : ContainerOp)
    (hwf : s.Wf) (hsort : s.KeySorted) (hf : FreshOp s op) :
    (applyOp s op).Wf ∧ (applyOp s op).KeySorted := by
  cases op with
  | addOp item w =>
      rcases hfind : afind s.widgetsByItems item with _ | wE
      · obtain ⟨i, _, _, _, _, hwf', hsort'⟩ :=
          addItem_absent_spec s item w hwf hsort hf hfind
        exact ⟨hwf', hsort'⟩
      · have heq : (s.addItem item w).1 = s := by
          rw [addItem_present_eq s item w wE hfind]
        show ((s.addItem item w).1).Wf ∧ ((s.addItem item w).1).KeySorted
        rw [heq]
        exact ⟨hwf, hsort⟩
  | removeOp item =>
      rcases hfind : afind s.widgetsByItems item with _ | wv
      · have heq := removeItem_absent_eq s item hfind
        simp only [applyOp]
        rw [heq]
        exact ⟨hwf, hsort⟩
      · obtain ⟨s', heq, hwf', hsort', _, _, _, _, _, _⟩ :=
          removeItem_present_spec s item wv hwf hfind
        simp only [applyOp]
        rw [heq]
        exact ⟨hwf', hsort' hsort⟩

theorem runOps_inv (ops : List ContainerOp) :
    ∀ s : ContainerState, s.Wf → s.KeySorted → FreshOps s ops →
      (runOps s ops).Wf ∧ (runOps s ops).KeySorted := by
  induction ops with
  | nil => exact fun s hwf hsort _ => ⟨hwf, hsort⟩
  | cons op rest ih =>
      intro s hwf hsort hfr
      obtain ⟨hwf', hsort'⟩ := applyOp_preserves s op hwf hsort hfr.1
      exact ih (applyOp s op) hwf' hsort' hfr.2

/-- C2: starting from the empty container, any sequence of
`add_item`/`remove_item` calls (each added widget freshly built) leaves
the displayed widgets in non-decreasing order of their derived keys. -/
theorem C2_order_invariant (kf : Nat → Int) (ops : List ContainerOp)
    (hfresh : FreshOps (ContainerState.empty kf) ops) :
    (runOps (ContainerState.empty kf) ops).KeySorted :=
  (runOps_inv ops (ContainerState.empty kf) (empty_wf kf)
    (empty_keySorted kf) hfresh).2

/-- C2 witness: the spec's end-to-end example (keys 3, 1, 2 added in that
order, then one present and one absent removal). -/
theorem C2_order_invariant_witness :
    (runOps
      (ContainerState.empty
        (fun n => if n = 0 then 3 else if n = 1 then 1 else 2))
      [ContainerOp.addOp 0 ⟨0, 10⟩, ContainerOp.addOp 1 ⟨1, 11⟩,
        ContainerOp.addOp 2 ⟨2, 12⟩, ContainerOp.removeOp 1,
        ContainerOp.removeOp 5]).KeySorted :=
  C2_order_invariant _ _ (by decide)

/-- Formalization of C5's claim that `remove_item` on a present item
removes the pair from BOTH mappings: after a successful removal the
widget-to-object dictionary no longer knows the widget. -/
def removeDeletesBothMappings : Prop :=
  ∀ (s : ContainerState) (item : Nat) (wv : Widget),
    s.Wf → afind s.widgetsByItems item = some wv →
    ∀ (s' : ContainerState) (r : Option Widget),
      s.removeItem item = Except.ok (s', r) →
      afind s'.itemsByWidgets wv = none

/-- C5 counterexample: removing the only item of a one-element container
leaves the stale widget-to-object entry in `_items_by_widgets` (the
source deletes only from `_widgets_by_items`). -/
theorem C5_remove_counterexample : ¬ removeDeletesBothMappings := by
  intro hcl
  have h := hcl
    ⟨fun n => (n : Int), [⟨0, 5⟩], [(7, ⟨0, 5⟩)], [(⟨0, 5⟩, 7)], some 0⟩
    7 ⟨0, 5⟩ (by decide) (by decide)
    ⟨fun n => (n : Int), [], [], [(⟨0, 5⟩, 7)], none⟩ (some ⟨0, 5⟩) rfl
  exact absurd h (by decide)

/-- C5 (amended): on a well-formed container the two dictionaries are
inverse bijections over the displayed set and stay that way under every
operation (the well-formedness invariant); `remove_item` on a present
item removes the pair from the object-to-widget dictionary and removes
the widget from the visual container, but the widget-to-object dictionary
keeps a stale entry for the removed widget. -/
theorem C5_remove_mapping_policy (s : ContainerState) (item : Nat) (wv : Widget)
    (hwf : s.Wf) (hfound : afind s.widgetsByItems item = some wv) :
    ∃ s' : ContainerState,
      s.removeItem item = Except.ok (s', some wv) ∧
      afind s'.widgetsByItems item = none ∧
      wv ∉ s'.body ∧
      afind s'.itemsByWidgets wv = some item ∧
      s'.Wf := by
  obtain ⟨s', heq, hwf', _, hwbi, hibw, _, hnb, _, hnone⟩ :=
    removeItem_present_spec s item wv hwf hfound
  refine ⟨s', heq, hnone, hnb, ?_, hwf'⟩
  rw [hibw]
  exact (hwf.2.1 _ (mem_of_afind_some hfound)).2

/-- C5 witness: the one-element container at concrete values. -/
theorem C5_remove_mapping_witness :
    ∃ s' : ContainerState,
      ContainerState.removeItem
          ⟨fun n => (n : Int), [⟨0, 5⟩], [(7, ⟨0, 5⟩)], [(⟨0, 5⟩, 7)], some 0⟩ 7 =
        Except.ok (s', some ⟨0, 5⟩) ∧
      afind s'.widgetsByItems 7 = none ∧
      (⟨0, 5⟩ : Widget) ∉ s'.body ∧
      afind s'.itemsByWidgets ⟨0, 5⟩ = some 7 ∧
      s'.Wf :=
  C5_remove_mapping_policy
    ⟨fun n => (n : Int), [⟨0, 5⟩], [(7, ⟨0, 5⟩)], [(⟨0, 5⟩, 7)], some 0⟩
    7 ⟨0, 5⟩ (by decide) (by decide)

theorem foldl_addWidget_spec :
    ∀ (ws : List Widget) (s : ContainerState),
      (∀ f ∈ s.focus.toList, f < s.body.length) →
      (ws.foldl (fun acc w => acc.addWidget w none) s).body = s.body ++ ws ∧
      (ws.foldl (fun acc w => acc.addWidget w none) s).itemsByWidgets =
        s.itemsByWidgets ∧
      (ws.foldl (fun acc w => acc.addWidget w none) s).widgetsByItems =
        s.widgetsByItems ∧
      (ws.foldl (fun acc w => acc.addWidget w none) s).keyf = s.keyf ∧
      (ws.foldl (fun acc w => acc.addWidget w none) s).focus =
        (match s.focus with
         | some f => some f
         | none => if ws.isEmpty then none else some 0) ∧
      (∀ f ∈ (ws.foldl (fun acc w => acc.addWidget w none) s).focus.toList,
        f < (ws.foldl (fun acc w => acc.addWidget w none) s).body.length) := by
  intro ws
  induction ws with
  | nil =>
      intro s hfb
      refine ⟨by simp, rfl, rfl, rfl, ?_, hfb⟩
      rcases hfo : s.focus with _ | f <;> simp [hfo]
  | cons w rest ih =>
      intro s hfb
      have haw : s.addWidget w none =
          { s with
              body := s.body ++ [w],
              focus := match s.focus with
                       | none => some 0
                       | some f => some f } := by
        unfold ContainerState.addWidget
        rcases hfo : s.focus with _ | f
        · simp [List.insertIdx_length_self]
        · have hflt := hfb f (by rw [hfo]; exact List.mem_singleton.mpr rfl)
          simp only [List.insertIdx_length_self]
          rw [if_neg (by omega)]
      have hfb' : ∀ f ∈ (s.addWidget w none).focus.toList,
          f < (s.addWidget w none).body.length := by
        rw [haw]
        rcases hfo : s.focus with _ | f
        · simp only [hfo]
          intro g hg
          simp only [Option.toList_some, List.mem_singleton] at hg
          subst hg
          simp
        · have hflt := hfb f (by rw [hfo]; exact List.mem_singleton.mpr rfl)
          simp only [hfo]
          intro g hg
          simp only [Option.toList_some, List.mem_singleton] at hg
          subst hg
          rw [List.length_append]
          omega
      obtain ⟨hb, hi, hw2, hk, hf, hfr⟩ := ih (s.addWidget w none) hfb'
      rw [List.foldl_cons]
      refine ⟨?_, ?_, ?_, ?_, ?_, hfr⟩
      · rw [hb, haw]
        simp
      · rw [hi, haw]
      · rw [hw2, haw]
      · rw [hk, haw]
      · rw [hf, haw]
        rcases hfo : s.focus with _ | f <;> simp [hfo]

/-- Behaviour of `update_order` on a well-formed container: the body is
rewritten to the comparator-sorted permutation, the dictionaries and key
function are untouched, the selected business object is unchanged, and
the focus stays clear exactly when it was clear (empty container). -/
theorem updateOrder_spec (s : ContainerState) (hwf : s.Wf) :
    (s.updateOrder).body = List.insertionSort s.widgetLe s.body ∧
    (s.updateOrder).itemsByWidgets = s.itemsByWidgets ∧
    (s.updateOrder).widgetsByItems = s.widgetsByItems ∧
    (s.updateOrder).keyf = s.keyf ∧
    (s.updateOrder).selectedItem = s.selectedItem ∧
    ((s.updateOrder).focus = none ↔ s.focus = none) := by
  obtain ⟨hA, hB, hCw, hCa, hDw, hDi, hFn, hFr⟩ := hwf
  have hfb0 : ∀ f ∈ (s.clearBody).focus.toList, f < (s.clearBody).body.length := by
    intro f hf
    simp [ContainerState.clearBody] at hf
  obtain ⟨hb, hi, hw2, hk, hf, hfr⟩ :=
    foldl_addWidget_spec (List.insertionSort s.widgetLe s.body) (s.clearBody) hfb0
  have hperm := List.perm_insertionSort s.widgetLe s.body
  rcases hfo : s.focus with _ | f
  · -- empty container: nothing focused
    have hbody : s.body = [] := hFn.mp hfo
    have hws : List.insertionSort s.widgetLe s.body = [] := by
      rw [hbody]
      rfl
    have hfw : s.focusedWidget = none := by
      unfold ContainerState.focusedWidget
      rw [hfo]
    have hupd : s.updateOrder =
        (List.insertionSort s.widgetLe s.body).foldl
          (fun acc w => acc.addWidget w none) (s.clearBody) := by
      unfold ContainerState.updateOrder
      rw [hfw]
    rw [hupd]
    refine ⟨by rw [hb]; simp [ContainerState.clearBody],
      by rw [hi]; rfl, by rw [hw2]; rfl, by rw [hk]; rfl, ?_, ?_⟩
    · unfold ContainerState.selectedItem ContainerState.focusedWidget
      rw [hf, hfo]
      simp only [ContainerState.clearBody, hws]
      rfl
    · rw [hf]
      simp only [ContainerState.clearBody, hws]
      simp
  · -- something focused: the focus follows the widget
    have hflt : f < s.body.length :=
      hFr f (by rw [hfo]; exact List.mem_singleton.mpr rfl)
    have hfw : s.focusedWidget = some (s.body.get ⟨f, hflt⟩) := by
      unfold ContainerState.focusedWidget
      rw [hfo]
      exact List.getElem?_eq_getElem hflt
    have hmemb : s.body.get ⟨f, hflt⟩ ∈ s.body := List.get_mem s.body f hflt
    have hmemws : s.body.get ⟨f, hflt⟩ ∈ List.insertionSort s.widgetLe s.body :=
      hperm.mem_iff.mpr hmemb
    have hupd : s.updateOrder =
        { (List.insertionSort s.widgetLe s.body).foldl
            (fun acc w => acc.addWidget w none) (s.clearBody) with
            focus := some (List.indexOf (s.body.get ⟨f, hflt⟩)
              (List.insertionSort s.widgetLe s.body)) } := by
      unfold ContainerState.updateOrder
      rw [hfw]
      simp only [hmemws, if_true]
    have hidx : List.indexOf (s.body.get ⟨f, hflt⟩)
        (List.insertionSort s.widgetLe s.body) <
        (List.insertionSort s.widgetLe s.body).length :=
      List.indexOf_lt_length.mpr hmemws
    rw [hupd]
    refine ⟨?_, ?_, ?_, ?_, ?_, ?_⟩
    · show ((List.insertionSort s.widgetLe s.body).foldl
        (fun acc w => acc.addWidget w none) (s.clearBody)).body = _
      rw [hb]
      simp [ContainerState.clearBody]
    · show ((List.insertionSort s.widgetLe s.body).foldl
        (fun acc w => acc.addWidget w none) (s.clearBody)).itemsByWidgets = _
      rw [hi]
      rfl
    · show ((List.insertionSort s.widgetLe s.body).foldl
        (fun acc w => acc.addWidget w none) (s.clearBody)).widgetsByItems = _
      rw [hw2]
      rfl
    · show ((List.insertionSort s.widgetLe s.body).foldl
        (fun acc w => acc.addWidget w none) (s.clearBody)).keyf = _
      rw [hk]
      rfl
    · have hbody2 : ((List.insertionSort s.widgetLe s.body).foldl
          (fun acc w => acc.addWidget w none) (s.clearBody)).body =
          List.insertionSort s.widgetLe s.body := by
        rw [hb]
        simp [ContainerState.clearBody]
      have hfwL : ContainerState.focusedWidget
          { (List.insertionSort s.widgetLe s.body).foldl
              (fun acc w => acc.addWidget w none) (s.clearBody) with
              focus := some (List.indexOf (s.body.get ⟨f, hflt⟩)
                (List.insertionSort s.widgetLe s.body)) } =
          some (s.body.get ⟨f, hflt⟩) := by
        show ((List.insertionSort s.widgetLe s.body).foldl
            (fun acc w => acc.addWidget w none) (s.clearBody)).body[
              (List.indexOf (s.body.get ⟨f, hflt⟩)
                (List.insertionSort s.widgetLe s.body))]? = _
        rw [hbody2, List.getElem?_eq_getElem hidx]
        exact congrArg some (List.indexOf_get hidx)
      unfold ContainerState.selectedItem
      rw [hfwL, hfw]
      show afind ((List.insertionSort s.widgetLe s.body).foldl
        (fun acc w => acc.addWidget w none) (s.clearBody)).itemsByWidgets _ =
        afind s.itemsByWidgets _
      rw [hi]
      rfl
    · constructor
      · intro hcontra
        exact Option.noConfusion hcontra
      · intro hcontra
        exact Option.noConfusion hcontra

/-- C9: on a well-formed container, `update_order` keeps the selected
business object (the focus is restored to the widget of the previously
focused object, which is always still present), and when nothing was
focused (empty container) the focus stays unset. -/
theorem C9_update_order_keeps_selection (s : ContainerState) (hwf : s.Wf) :
    (s.updateOrder).selectedItem = s.selectedItem ∧
    ((s.updateOrder).focus = none ↔ s.focus = none) :=
  ⟨(updateOrder_spec s hwf).2.2.2.2.1, (updateOrder_spec s hwf).2.2.2.2.2⟩

/-- C9 witness: a two-element constant-key container focused on the
widget that moves during the re-sort; the selected object is preserved. -/
theorem C9_update_order_witness :
    (ContainerState.updateOrder
        ⟨fun _ => 0, [⟨0, 5⟩, ⟨1, 3⟩], [(0, ⟨0, 5⟩), (1, ⟨1, 3⟩)],
          [(⟨0, 5⟩, 0), (⟨1, 3⟩, 1)], some 0⟩).selectedItem =
      ContainerState.selectedItem
        ⟨fun _ => 0, [⟨0, 5⟩, ⟨1, 3⟩], [(0, ⟨0, 5⟩), (1, ⟨1, 3⟩)],
          [(⟨0, 5⟩, 0), (⟨1, 3⟩, 1)], some 0⟩ ∧
    ((ContainerState.updateOrder
        ⟨fun _ => 0, [⟨0, 5⟩, ⟨1, 3⟩], [(0, ⟨0, 5⟩), (1, ⟨1, 3⟩)],
          [(⟨0, 5⟩, 0), (⟨1, 3⟩, 1)], some 0⟩).focus = none ↔
      (ContainerState.mk (fun _ => 0) [⟨0, 5⟩, ⟨1, 3⟩]
          [(0, ⟨0, 5⟩), (1, ⟨1, 3⟩)] [(⟨0, 5⟩, 0), (⟨1, 3⟩, 1)]
          (some 0)).focus = none) :=
  C9_update_order_keeps_selection
    ⟨fun _ => 0, [⟨0, 5⟩, ⟨1, 3⟩], [(0, ⟨0, 5⟩), (1, ⟨1, 3⟩)],
      [(⟨0, 5⟩, 0), (⟨1, 3⟩, 1)], some 0⟩ (by decide)

theorem widgetLe_iff (s : ContainerState) (a b : Widget) :
    s.widgetLe a b ↔
      (s.keyOf a < s.keyOf b ∨ (s.keyOf a = s.keyOf b ∧ a.addr ≤ b.addr)) := by
  unfold ContainerState.widgetLe ContainerState.compareWidgets intOr
    ContainerState.compareItems ContainerState.keyOf cmpPy
  simp only []
  split_ifs <;> constructor <;> intro h <;> omega

theorem widgetLe_total (s : ContainerState) (a b : Widget) :
    s.widgetLe a b ∨ s.widgetLe b a := by
  rw [widgetLe_iff, widgetLe_iff]
  omega

theorem widgetLe_trans (s : ContainerState) (a b c : Widget)
    (h1 : s.widgetLe a b) (h2 : s.widgetLe b c) : s.widgetLe a c := by
  rw [widgetLe_iff] at h1 h2 ⊢
  omega

/-- Formalization of C6 as stated for `update_order`: re-sorting never
changes the relative order of equal-key widgets. -/
def updateOrderPreservesEqualKeyOrder : Prop :=
  ∀ s : ContainerState, s.Wf →
    ∀ a b : Widget, a ∈ s.body → b ∈ s.body →
      s.keyOf a = s.keyOf b →
      List.indexOf a s.body < List.indexOf b s.body →
      List.indexOf a (s.updateOrder).body < List.indexOf b (s.updateOrder).body

/-- C6 counterexample: two equal-key widgets inserted in the order
`addr 5`, `addr 3` are swapped by `update_order`, because the tie-break
is the `id()` value, not the insertion order. -/
theorem C6_update_order_counterexample : ¬ updateOrderPreservesEqualKeyOrder := by
  intro hcl
  have h := hcl
    ⟨fun _ => 0, [⟨0, 5⟩, ⟨1, 3⟩], [(0, ⟨0, 5⟩), (1, ⟨1, 3⟩)],
      [(⟨0, 5⟩, 0), (⟨1, 3⟩, 1)], some 0⟩
    (by decide) ⟨0, 5⟩ ⟨1, 3⟩ (by decide) (by decide) (by decide) (by decide)
  exact absurd h (by decide)

/-- C6 (amended): `update_order` rewrites the body to a permutation
sorted by derived key with ties broken by strictly increasing widget
address (`id()` order) — a deterministic order that need not match the
insertion order; `add_item`, by contrast, does respect arrival order for
equal keys, inserting the new widget after every widget whose key is less
than or equal to the new key and before every strictly greater key. -/
theorem C6_tie_break_policy (s : ContainerState) (hwf : s.Wf) :
    ((s.updateOrder).body.Perm s.body) ∧
    ((s.updateOrder).body.Pairwise (fun a b =>
        s.keyOf a < s.keyOf b ∨ (s.keyOf a = s.keyOf b ∧ a.addr < b.addr))) ∧
    (∀ (item : Nat) (w : Widget),
      s.KeySorted → s.freshWidget w → afind s.widgetsByItems item = none →
      ∃ i : Nat, i ≤ s.body.length ∧
        (s.addItem item w).1.body = s.body.insertIdx i w ∧
        (∀ x ∈ s.body.take i, s.keyOf x ≤ s.keyf item) ∧
        (∀ x ∈ s.body.drop i, s.keyf item < s.keyOf x)) := by
  have hperm := List.perm_insertionSort s.widgetLe s.body
  have hbody := (updateOrder_spec s hwf).1
  have hpermU : (s.updateOrder).body.Perm s.body := by
    rw [hbody]
    exact hperm
  refine ⟨hpermU, ?_, ?_⟩
  · haveI : IsTotal Widget s.widgetLe := ⟨widgetLe_total s⟩
    haveI : IsTrans Widget s.widgetLe := ⟨widgetLe_trans s⟩
    have hsorted : (List.insertionSort s.widgetLe s.body).Pairwise s.widgetLe :=
      List.sorted_insertionSort s.widgetLe s.body
    have haddr : ((s.updateOrder).body.map Widget.addr).Nodup :=
      ((hpermU.map Widget.addr).symm).nodup hwf.2.2.2.1
    have hne : (s.updateOrder).body.Pairwise (fun a b => a.addr ≠ b.addr) :=
      (List.pairwise_map).mp haddr
    have hle : (s.updateOrder).body.Pairwise s.widgetLe := by
      rw [hbody]
      exact hsorted
    refine (hle.and hne).imp ?_
    intro a b hab2
    have h1 := (widgetLe_iff s a b).mp hab2.1
    have h2 := hab2.2
    rcases h1 with h1 | h1
    · exact Or.inl h1
    · exact Or.inr ⟨h1.1, lt_of_le_of_ne h1.2 h2⟩
  · intro item w hsort hfresh hab
    obtain ⟨i, hbnd, heq, htake, hdrop, _, _⟩ :=
      addItem_absent_spec s item w hwf hsort hfresh hab
    refine ⟨i, hbnd, ?_, htake, hdrop⟩
    rw [heq]

/-- C6 witness: constant keys with addresses 5 and 3; `update_order`
produces the address-sorted permutation, and a fresh equal-key widget is
appended after the existing ones by `add_item`. -/
theorem C6_tie_break_witness :
    ((ContainerState.updateOrder
        ⟨fun _ => 0, [⟨0, 5⟩, ⟨1, 3⟩], [(0, ⟨0, 5⟩), (1, ⟨1, 3⟩)],
          [(⟨0, 5⟩, 0), (⟨1, 3⟩, 1)], some 0⟩).body.Perm
      [⟨0, 5⟩, ⟨1, 3⟩]) ∧
    ((ContainerState.updateOrder
        ⟨fun _ => 0, [⟨0, 5⟩, ⟨1, 3⟩], [(0, ⟨0, 5⟩), (1, ⟨1, 3⟩)],
          [(⟨0, 5⟩, 0), (⟨1, 3⟩, 1)], some 0⟩).body.Pairwise (fun a b =>
        ContainerState.keyOf
            ⟨fun _ => 0, [⟨0, 5⟩, ⟨1, 3⟩], [(0, ⟨0, 5⟩), (1, ⟨1, 3⟩)],
              [(⟨0, 5⟩, 0), (⟨1, 3⟩, 1)], some 0⟩ a <
          ContainerState.keyOf
            ⟨fun _ => 0, [⟨0, 5⟩, ⟨1, 3⟩], [(0, ⟨0, 5⟩), (1, ⟨1, 3⟩)],
              [(⟨0, 5⟩, 0), (⟨1, 3⟩, 1)], some 0⟩ b ∨
        (ContainerState.keyOf
            ⟨fun _ => 0, [⟨0, 5⟩, ⟨1, 3⟩], [(0, ⟨0, 5⟩), (1, ⟨1, 3⟩)],
              [(⟨0, 5⟩, 0), (⟨1, 3⟩, 1)], some 0⟩ a =
          ContainerState.keyOf
            ⟨fun _ => 0, [⟨0, 5⟩, ⟨1, 3⟩], [(0, ⟨0, 5⟩), (1, ⟨1, 3⟩)],
              [(⟨0, 5⟩, 0), (⟨1, 3⟩, 1)], some 0⟩ b ∧
          a.addr < b.addr))) ∧
    (∀ (item : Nat) (w : Widget),
      ContainerState.KeySorted
          ⟨fun _ => 0, [⟨0, 5⟩, ⟨1, 3⟩], [(0, ⟨0, 5⟩), (1, ⟨1, 3⟩)],
            [(⟨0, 5⟩, 0), (⟨1, 3⟩, 1)], some 0⟩ →
      ContainerState.freshWidget
          ⟨fun _ => 0, [⟨0, 5⟩, ⟨1, 3⟩], [(0, ⟨0, 5⟩), (1, ⟨1, 3⟩)],
            [(⟨0, 5⟩, 0), (⟨1, 3⟩, 1)], some 0⟩ w →
      afind [(0, (⟨0, 5⟩ : Widget)), (1, ⟨1, 3⟩)] item = none →
      ∃ i : Nat, i ≤ 2 ∧
        (ContainerState.addItem
            ⟨fun _ => 0, [⟨0, 5⟩, ⟨1, 3⟩], [(0, ⟨0, 5⟩), (1, ⟨1, 3⟩)],
              [(⟨0, 5⟩, 0), (⟨1, 3⟩, 1)], some 0⟩ item w).1.body =
          ([⟨0, 5⟩, ⟨1, 3⟩] : List Widget).insertIdx i w ∧
        (∀ x ∈ ([⟨0, 5⟩, ⟨1, 3⟩] : List Widget).take i,
          ContainerState.keyOf
              ⟨fun _ => 0, [⟨0, 5⟩, ⟨1, 3⟩], [(0, ⟨0, 5⟩), (1, ⟨1, 3⟩)],
                [(⟨0, 5⟩, 0), (⟨1, 3⟩, 1)], some 0⟩ x ≤ 0) ∧
        (∀ x ∈ ([⟨0, 5⟩, ⟨1, 3⟩] : List Widget).drop i,
          0 < ContainerState.keyOf
              ⟨fun _ => 0, [⟨0, 5⟩, ⟨1, 3⟩], [(0, ⟨0, 5⟩), (1, ⟨1, 3⟩)],
                [(⟨0, 5⟩, 0), (⟨1, 3⟩, 1)], some 0⟩ x)) :=
  C6_tie_break_policy
    ⟨fun _ => 0, [⟨0, 5⟩, ⟨1, 3⟩], [(0, ⟨0, 5⟩), (1, ⟨1, 3⟩)],
      [(⟨0, 5⟩, 0), (⟨1, 3⟩, 1)], some 0⟩ (by decide)
